import Mathlib

/-!
Verification of the HomebrewDIY request-processing runtime.

This file gives a shallow embedding, in Lean 4, of the parts of the
HomebrewDIY server that the specification's claims are about:

* the login-attempt throttle (`workers.logins.log` in `bin/workers.js`)
  and the basic-authentication branch of `authenticate` (`bin/serverware.js`);
* the JSON-web-token service (`workers.jwt` in `bin/workers.js`);
* the body parsers (`bodyParseText`, `bodyParseUrlEnc`, `bodyParseOctet`,
  `bodyParseFormData` in `bin/serverware.js`);
* the JSON store (`jxDB.prototype.query` / `jxDB.prototype.modify`) and the
  `Object.prototype.mergekeys` deep merge (`bin/Extensions2JS.js`);
* the static-content cache (`FileEntry` in `bin/caching.js`) and the
  conditional-GET / compression logic of `contentMW` (`bin/nativeware.js`).

JavaScript strings and Buffers are modelled as `List Char`; JavaScript
numbers that the code uses as integers are modelled as `Int` or `Nat`
(times in milliseconds or seconds as `Nat`).  Fallible code returns
`Option` or `Except`.  External libraries (bcrypt, jsonata, node crypto,
zlib) are abstracted as explicit function parameters of the definitions
that use them.
-/

set_option maxRecDepth 100000

namespace DIY

/-- JSON value tree, the data model of the store and of request/response
payloads.  Numbers are restricted to the integers actually used by the
code paths under verification. -/
inductive Json where
  | null : Json
  | bool (b : Bool) : Json
  | num (n : Int) : Json
  | str (s : String) : Json
  | arr (xs : List Json) : Json
  | obj (kvs : List (String × Json)) : Json
deriving Repr

/-- Decidable equality of `Json` trees (structural, matching `===`-free
deep comparison of JSON values). -/
def Json.jeq : Json → Json → Bool
  | .null, .null => true
  | .bool a, .bool b => a == b
  | .num a, .num b => a == b
  | .str a, .str b => a == b
  | .arr a, .arr b => jeqList a b
  | .obj a, .obj b => jeqObj a b
  | _, _ => false
where
  jeqList : List Json → List Json → Bool
    | [], [] => true
    | x :: xs, y :: ys => x.jeq y && jeqList xs ys
    | _, _ => false
  jeqObj : List (String × Json) → List (String × Json) → Bool
    | [], [] => true
    | (k, x) :: xs, (l, y) :: ys => k == l && x.jeq y && jeqObj xs ys
    | _, _ => false

/-- JavaScript truthiness of a JSON value: `false`, `0`, `""` and `null`
are falsy, every object and array is truthy. -/
def jsTruthy : Json → Bool
  | .null => false
  | .bool b => b
  | .num n => n != 0
  | .str s => s != ""
  | .arr _ => true
  | .obj _ => true

/-- The `isObj` test used by `mergekeys`: a non-null value of type
`object` (arrays included; `RegExp` values do not occur in our model). -/
def jsIsObj : Json → Bool
  | .arr _ => true
  | .obj _ => true
  | _ => false

/-- First-match association lookup on the entry list of a JSON object
(object keys are unique, so first-match is the JavaScript semantics). -/
def getKey : List (String × Json) → String → Option Json
  | [], _ => none
  | (a, b) :: rest, k => if a == k then some b else getKey rest k

/-- Field lookup on a JSON object (`o[key]`); `none` models JavaScript
`undefined` (missing key, or any access on a non-object). -/
def Json.getField : Json → String → Option Json
  | .obj kvs, k => getKey kvs k
  | _, _ => none

/-! ### C1: login-attempt throttle

Model of `workers.logins` (an `Internals` instance) restricted to one
username, and of `workers.logins.log` (bin/workers.js lines 562-585).
The per-user branch of the `Internals` data holds the ISO timestamp of
the last attempt of each kind (`stamps`), plus the special keys `mark`
(window anchor, an ISO timestamp, modelled in epoch milliseconds) and
`count` (failure counter).  The attempt kinds used by `authenticate`
(`basic`, `bearer`, `invalid`, `failed JWT`, `failed inactive`,
`failed login`) never collide with `mark`/`count`. -/

/-- HTTP error value thrown by workers and middleware: a code and a
message (the optional `detail` field never matters for these claims). -/
structure HttpErr where
  code : Nat
  msg : String
deriving Repr, DecidableEq

/-- Per-user slice of the `workers.logins` Internals store. -/
structure UserLog where
  count : Option Int := none
  mark : Option Nat := none
  stamps : List (String × Nat) := []
deriving Repr, DecidableEq

/-- Assoc-list update used to model `Internals.set(usr,key,value)`. -/
def setStamp (l : List (String × Nat)) (k : String) (v : Nat) : List (String × Nat) :=
  if l.any (fun p => p.1 = k) then l.map (fun p => if p.1 = k then (k, v) else p)
  else l ++ [(k, v)]

/-- JavaScript `s.startsWith(p)`, computed on the character lists. -/
def jsStartsWith (s p : String) : Bool := p.data.isPrefixOf s.data

/-- The 401 error thrown by the throttle when the failure counter
exceeds 3 inside the 10-minute window. -/
def lockedErr : HttpErr :=
  ⟨401, "Too many login attempts; Account locked for 10 minutes!"⟩

/-- The 401 error passed by `authenticate` for a wrong password/passcode. -/
def authFailedErr : HttpErr := ⟨401, "Authentication failed!"⟩

/-- `workers.logins.log(usr, tag, err)` for a single user.  `now` is the
current epoch time in milliseconds.  Returns the thrown error (`some e`;
the function always throws on `fail*` tags) or `none` together with the
updated per-user state.  Mirrors bin/workers.js lines 562-585:
`Internals.inc` is `value ? value+1 : 1`. -/
def loginsLog (s : UserLog) (now : Nat) (tag : String) (err : HttpErr) :
    Option HttpErr × UserLog :=
  let s := { s with stamps := setStamp s.stamps tag now }
  if jsStartsWith tag "fail" then
    let (s, mark) := match s.mark with
      | none => ({ s with mark := some now }, now)
      | some m => (s, m)
    if now < mark + 10 * 60 * 1000 then
      let newCount : Int := match s.count with
        | some c => if c != 0 then c + 1 else 1
        | none => 1
      let s := { s with count := some newCount }
      if newCount > 3 then (some lockedErr, { s with mark := some now })
      else (some err, s)
    else
      (some err, { s with mark := some now, count := some 1 })
  else
    (none, { s with count := none, mark := none })

/-- One basic-authentication attempt for an existing ACTIVE user, the
credentials-checking tail of `authenticate` (bin/serverware.js lines
165-170): a wrong password/passcode reaches
`logins.log(user.username,'failed login', 401 Authentication failed!)`
(which always throws); correct credentials skip it and reach
`logins.log(ctx.user.username,'basic')`, which returns normally after
clearing `count` and `mark`.  The `err` argument of the success-path
call is never read by `loginsLog`. -/
def basicAttempt (s : UserLog) (now : Nat) (credsOk : Bool) :
    Option HttpErr × UserLog :=
  if credsOk then loginsLog s now "basic" authFailedErr
  else loginsLog s now "failed login" authFailedErr

/-- Fold of `basicAttempt` over a list of (time, credentials-correct)
attempts, collecting the outcome of each attempt. -/
def runAttempts (s : UserLog) : List (Nat × Bool) → List (Option HttpErr) × UserLog
  | [] => ([], s)
  | (t, ok) :: rest =>
      let (e, s') := basicAttempt s t ok
      let (es, s'') := runAttempts s' rest
      (e :: es, s'')

theorem jsStartsWith_failedLogin : jsStartsWith "failed login" "fail" = true := by decide

theorem jsStartsWith_basic : jsStartsWith "basic" "fail" = false := by decide

theorem basicAttempt_fail_fresh (st : List (String × Nat)) (t : Nat) :
    basicAttempt { count := none, mark := none, stamps := st } t false
      = (some authFailedErr,
         { count := some 1, mark := some t, stamps := setStamp st "failed login" t }) := by
  simp only [basicAttempt, loginsLog, jsStartsWith_failedLogin]
  norm_num

theorem basicAttempt_fail_within (c : Int) (m t : Nat) (st : List (String × Nat))
    (hc1 : 1 ≤ c) (hc : c ≤ 2) (hwin : t < m + 10 * 60 * 1000) :
    basicAttempt { count := some c, mark := some m, stamps := st } t false
      = (some authFailedErr,
         { count := some (c + 1), mark := some m, stamps := setStamp st "failed login" t }) := by
  simp only [basicAttempt, loginsLog, jsStartsWith_failedLogin]
  have hne : ¬ (c = 0) := by omega
  have hle : ¬ (c + 1 > 3) := by omega
  norm_num [hwin, hne, hle]

theorem basicAttempt_fail_locks (c : Int) (m t : Nat) (st : List (String × Nat))
    (hc : 3 ≤ c) (hwin : t < m + 10 * 60 * 1000) :
    basicAttempt { count := some c, mark := some m, stamps := st } t false
      = (some lockedErr,
         { count := some (c + 1), mark := some t, stamps := setStamp st "failed login" t }) := by
  simp only [basicAttempt, loginsLog, jsStartsWith_failedLogin]
  have hne : ¬ (c = 0) := by omega
  have hgt : c + 1 > 3 := by omega
  norm_num [hwin, hne, hgt]

theorem basicAttempt_success (s : UserLog) (t : Nat) :
    basicAttempt s t true
      = (none, { count := none, mark := none, stamps := setStamp s.stamps "basic" t }) := by
  simp only [basicAttempt, loginsLog, jsStartsWith_basic]
  norm_num

theorem runAttempts_cons (s : UserLog) (t : Nat) (ok : Bool) (rest : List (Nat × Bool)) :
    runAttempts s ((t, ok) :: rest)
      = ((basicAttempt s t ok).1 :: (runAttempts (basicAttempt s t ok).2 rest).1,
         (runAttempts (basicAttempt s t ok).2 rest).2) := by
  simp only [runAttempts]

/-- C1 counterexample: four failed basic authentications for the same
username at times 0,1,2,3 ms (well inside 10 minutes) are followed by a
fifth attempt with CORRECT credentials at time 4 ms.  The claim says the
fifth attempt fails with 401 Account locked regardless of correctness;
the code instead lets it succeed (no error is thrown) and clears the
counter and the anchor — note also that the lock message already
appears on the fourth failed attempt, not the fifth. -/
theorem c1_counterexample :
    (runAttempts {} [(0, false), (1, false), (2, false), (3, false), (4, true)]).1
      = [some authFailedErr, some authFailedErr, some authFailedErr,
         some lockedErr, none] ∧
    (runAttempts {} [(0, false), (1, false), (2, false), (3, false), (4, true)]).2.count
      = none := by
  constructor <;> decide

/-- C1 as amended: from a fresh per-user state, three failed basic
authentications within the 10-minute window make the NEXT failed
attempt inside the window (the fourth) fail with 401 Account locked
(the window anchor advancing to that attempt), while an attempt with
correct credentials always succeeds — the lock never applies to it —
and clears the per-user failure counter and window anchor. -/
theorem c1_amended (t1 t2 t3 t4 t5 : Nat)
    (h12 : t1 ≤ t2) (h23 : t2 ≤ t3) (h34 : t3 ≤ t4)
    (hwin : t4 < t1 + 10 * 60 * 1000) :
    (runAttempts {} [(t1, false), (t2, false), (t3, false), (t4, false), (t5, true)]).1
      = [some authFailedErr, some authFailedErr, some authFailedErr,
         some lockedErr, none] ∧
    ((runAttempts {} [(t1, false), (t2, false), (t3, false), (t4, false), (t5, true)]).2.count
        = none ∧
     (runAttempts {} [(t1, false), (t2, false), (t3, false), (t4, false), (t5, true)]).2.mark
        = none) := by
  have h2 : t2 < t1 + 10 * 60 * 1000 := by omega
  have h3 : t3 < t1 + 10 * 60 * 1000 := by omega
  have run : runAttempts {} [(t1, false), (t2, false), (t3, false), (t4, false), (t5, true)]
      = ([some authFailedErr, some authFailedErr, some authFailedErr, some lockedErr, none],
         { count := none, mark := none,
           stamps := setStamp (setStamp (setStamp (setStamp (setStamp [] "failed login" t1)
             "failed login" t2) "failed login" t3) "failed login" t4) "basic" t5 }) := by
    show runAttempts { count := none, mark := none, stamps := [] }
        [(t1, false), (t2, false), (t3, false), (t4, false), (t5, true)] = _
    rw [runAttempts_cons, basicAttempt_fail_fresh]
    dsimp only
    rw [runAttempts_cons, basicAttempt_fail_within 1 t1 t2 _ (by omega) (by omega) h2]
    dsimp only
    norm_num
    rw [runAttempts_cons, basicAttempt_fail_within 2 t1 t3 _ (by omega) (by omega) h3]
    dsimp only
    norm_num
    rw [runAttempts_cons, basicAttempt_fail_locks 3 t1 t4 _ (by omega) hwin]
    dsimp only
    rw [runAttempts_cons, basicAttempt_success]
    dsimp only
    rw [runAttempts]
    exact ⟨rfl, rfl⟩
  rw [run]
  exact ⟨rfl, rfl, rfl⟩

/-- Witness for `c1_amended` at concrete times. -/
theorem c1_amended_witness :
    (runAttempts {} [(0, false), (0, false), (0, false), (0, false), (9, true)]).1
      = [some authFailedErr, some authFailedErr, some authFailedErr,
         some lockedErr, none] :=
  (c1_amended 0 0 0 0 9 (by decide) (by decide) (by decide) (by decide)).1

/-! ### C2/C9: JSON web tokens

Model of `workers.jwt` (bin/workers.js lines 172-199).  JavaScript
strings are `List Char`.  The external primitives — HMAC-SHA256
(`helpers.hmac`), base64url conversion of a digest (`base64.b64u`), and
the JSON/base64url codec pair (`base64.j64u` / `base64.u64j`) — are
explicit function parameters: `hm msg secret` is the digest of `msg`
under `secret`, `b64uF` strips/maps the digest to the base64url
alphabet, `j64uF` encodes a JSON value, and `u64jF` decodes (helpers'
`u64j` returns `{}` instead of throwing, so it is total). -/

/-- Assoc-list override used to model assignment `o[k] = v` on a
JavaScript object: an existing key keeps its position, a new key is
appended. -/
def setKey (kvs : List (String × Json)) (k : String) (v : Json) : List (String × Json) :=
  if kvs.any (fun p => p.1 == k) then kvs.map (fun p => if p.1 == k then (k, v) else p)
  else kvs ++ [(k, v)]

/-- `Object.assign({}, data, extra)` for an object `data`: each field of
`extra` overrides or extends `data`'s fields.  A primitive `data`
contributes no enumerable properties, so only `extra` remains (string
`data`, which would spread its characters, does not occur on the paths
under verification). -/
def objAssign (data : Json) (extra : List (String × Json)) : Json :=
  let base := match data with
    | .obj kvs => kvs
    | _ => []
  .obj (extra.foldl (fun acc p => setKey acc p.1 p.2) base)

/-- Defaults of `workers.jwt.cfg` (the 256-bit random secret is a
separate explicit argument below). -/
structure JwtCfg where
  expiration : Int := 60 * 24
  renewal : Bool := false

/-- The `exp` computation of `jwt.create`:
`expiration*60 || data.exp || workers.jwt.cfg.expiration*60`.
A missing `expiration` argument makes `expiration*60` NaN, which is
falsy, as is `0`. -/
def jwtExpOf (cfg : JwtCfg) (data : Json) (expiration : Option Int) : Json :=
  let fallback : Json :=
    match data.getField "exp" with
    | some v => if jsTruthy v then v else Json.num (cfg.expiration * 60)
    | none => Json.num (cfg.expiration * 60)
  match expiration with
  | some e => if e * 60 ≠ 0 then Json.num (e * 60) else fallback
  | none => fallback

/-- The fixed JWT header `{alg:'HS256', typ:'JWT'}`. -/
def jwtHeader : Json := .obj [("alg", .str "HS256"), ("typ", .str "JWT")]

/-- The payload minted by `jwt.create`: the input data augmented (via
`Object.assign`) with `iat`, `exp` and the renewal flag `ext`. -/
def jwtPayload (cfg : JwtCfg) (data : Json) (expSec : Json) (nowSec : Int) : Json :=
  objAssign data [("iat", .num nowSec), ("exp", expSec), ("ext", .bool cfg.renewal)]

/-- `jwt.create(data, secret, expiration)`: payload is the input data
augmented with `iat` (now, in epoch seconds), `exp` and the renewal
flag `ext`; the token is `encHeader.encPayload.signature` where the
signature is the base64url HMAC of `encHeader.encPayload`. -/
def jwtCreate (hm : List Char → List Char → List Char) (b64uF : List Char → List Char)
    (j64uF : Json → List Char) (cfg : JwtCfg) (data : Json) (secret : List Char)
    (expiration : Option Int) (nowSec : Int) : List Char :=
  let exp := jwtExpOf cfg data expiration
  let payload := jwtPayload cfg data exp nowSec
  let encHeader := j64uF jwtHeader
  let encPayload := j64uF payload
  let signature := b64uF (hm (encHeader ++ '.' :: encPayload) secret)
  encHeader ++ '.' :: (encPayload ++ '.' :: signature)

/-- `jwt.expired(payload)`: true when `new Date(1000*(iat+exp))` is
before now (milliseconds).  When `iat` or `exp` is not a number the
date is invalid and the comparison is false. -/
def jwtExpired (payload : Json) (nowMs : Int) : Bool :=
  match payload.getField "iat", payload.getField "exp" with
  | some (.num iat), some (.num exp) => 1000 * (iat + exp) < nowMs
  | _, _ => false

/-- JavaScript `String.prototype.split('.')` (no limit), on character
lists. -/
def splitDot : List Char → List (List Char)
  | [] => [[]]
  | c :: cs =>
      if c = '.' then [] :: splitDot cs
      else match splitDot cs with
        | [] => [[c]]
        | p :: ps => (c :: p) :: ps

/-- `jwt.verify(jwt, secret)`: appends `'..'`, splits on `'.'` with
limit 3, recomputes the HMAC signature over `header.payload` exactly as
given (the algorithm declared inside the token's header is never
consulted), and returns the decoded payload only when the given
signature equals the recomputed one and the payload is not expired.
`splitDot (jwt ++ "..")` always yields at least three fields, so the
fallback branch of the match is unreachable. -/
def jwtVerify (hm : List Char → List Char → List Char) (b64uF : List Char → List Char)
    (u64jF : List Char → Json) (jwt : List Char) (secret : List Char) (nowMs : Int) :
    Option Json :=
  match (splitDot (jwt ++ ['.', '.'])).take 3 with
  | [header, payload, signature] =>
      let chkSignature := b64uF (hm (header ++ '.' :: payload) secret)
      let payloadData := u64jF payload
      let expired := jwtExpired payloadData nowMs
      if signature == chkSignature && !expired then some payloadData else none
  | _ => none

theorem splitDot_nodot (a : List Char) (h : '.' ∉ a) : splitDot a = [a] := by
  induction a with
  | nil => rfl
  | cons c cs ih =>
      have hc : ¬ (c = '.') := fun hcc => h (hcc ▸ List.mem_cons_self c cs)
      have hcs : '.' ∉ cs := fun hm => h (List.mem_cons_of_mem c hm)
      simp only [splitDot, if_neg hc, ih hcs]

theorem splitDot_append (a rest : List Char) (h : '.' ∉ a) :
    splitDot (a ++ '.' :: rest) = a :: splitDot rest := by
  induction a with
  | nil => simp [splitDot]
  | cons c cs ih =>
      have hc : ¬ (c = '.') := fun hcc => h (hcc ▸ List.mem_cons_self c cs)
      have hcs : '.' ∉ cs := fun hm => h (List.mem_cons_of_mem c hm)
      have hih : splitDot (cs ++ '.' :: rest) = cs :: splitDot rest := ih hcs
      simp only [List.cons_append, splitDot, if_neg hc]
      rw [show cs.append ('.' :: rest) = cs ++ '.' :: rest from rfl, hih]

/-- Splitting a well-formed three-part token (dot-free fields) after
appending `'..'` recovers exactly the three fields. -/
theorem splitDot_token (h p s : List Char)
    (hh : '.' ∉ h) (hp : '.' ∉ p) (hs : '.' ∉ s) :
    (splitDot ((h ++ '.' :: (p ++ '.' :: s)) ++ ['.', '.'])).take 3 = [h, p, s] := by
  have e1 : (h ++ '.' :: (p ++ '.' :: s)) ++ ['.', '.']
      = h ++ '.' :: (p ++ '.' :: (s ++ '.' :: ['.'])) := by simp
  rw [e1, splitDot_append _ _ hh, splitDot_append _ _ hp, splitDot_append _ _ hs]
  rfl

theorem getKey_mapSet (qs : List (String × Json)) (k : String) (v : Json)
    (h : qs.any (fun p => p.1 == k) = true) :
    getKey (qs.map (fun p => if p.1 == k then (k, v) else p)) k = some v := by
  induction qs with
  | nil => simp at h
  | cons q qs ih =>
      simp only [List.map_cons]
      cases hq : (q.1 == k) with
      | true =>
          rw [show (if true = true then (k, v) else q) = (k, v) from rfl]
          simp [getKey]
      | false =>
          rw [show (if false = true then (k, v) else q) = q from rfl]
          have hqs : qs.any (fun p => p.1 == k) = true := by
            simp only [List.any_cons, hq, Bool.false_or] at h
            exact h
          simp only [getKey, hq, Bool.false_eq_true, if_false]
          exact ih hqs

theorem getKey_appendNew (qs : List (String × Json)) (k : String) (v : Json)
    (h : qs.any (fun p => p.1 == k) = false) :
    getKey (qs ++ [(k, v)]) k = some v := by
  induction qs with
  | nil => simp [getKey]
  | cons q qs ih =>
      simp only [List.any_cons, Bool.or_eq_false_iff] at h
      simp only [List.cons_append, getKey, h.1, Bool.false_eq_true, if_false]
      exact ih h.2

theorem getKey_mapSet_other (qs : List (String × Json)) (k k' : String) (v : Json)
    (hk : k ≠ k') :
    getKey (qs.map (fun p => if p.1 == k then (k, v) else p)) k' = getKey qs k' := by
  induction qs with
  | nil => rfl
  | cons q qs ih =>
      simp only [List.map_cons]
      cases hq : (q.1 == k) with
      | true =>
          have hqk : q.1 = k := by simpa using hq
          have hbq : (k == k') = false := by simpa using hk
          have hbq' : (q.1 == k') = false := by rw [hqk]; exact hbq
          rw [show (if true = true then (k, v) else q) = (k, v) from rfl]
          simp only [getKey, hbq, hbq', Bool.false_eq_true, if_false]
          exact ih
      | false =>
          rw [show (if false = true then (k, v) else q) = q from rfl]
          simp only [getKey]
          cases hb : (q.1 == k') with
          | true => simp
          | false => simp only [Bool.false_eq_true, if_false]; exact ih

theorem getKey_appendNew_other (qs : List (String × Json)) (k k' : String) (v : Json)
    (hk : k ≠ k') : getKey (qs ++ [(k, v)]) k' = getKey qs k' := by
  induction qs with
  | nil =>
      have hbq : (k == k') = false := by simpa using hk
      simp [getKey, hbq]
  | cons q qs ih =>
      simp only [List.cons_append, getKey]
      cases hb : (q.1 == k') with
      | true => simp
      | false => simp only [Bool.false_eq_true, if_false]; exact ih

theorem getKey_setKey_same (kvs : List (String × Json)) (k : String) (v : Json) :
    getKey (setKey kvs k v) k = some v := by
  unfold setKey
  cases hany : kvs.any (fun p => p.1 == k) with
  | true => rw [if_pos rfl]; exact getKey_mapSet kvs k v hany
  | false => rw [if_neg (by simp)]; exact getKey_appendNew kvs k v hany

theorem getKey_setKey_other (kvs : List (String × Json)) (k k' : String) (v : Json)
    (hk : k ≠ k') : getKey (setKey kvs k v) k' = getKey kvs k' := by
  unfold setKey
  cases hany : kvs.any (fun p => p.1 == k) with
  | true => rw [if_pos rfl]; exact getKey_mapSet_other kvs k k' v hk
  | false => rw [if_neg (by simp)]; exact getKey_appendNew_other kvs k k' v hk

theorem jwtPayload_iat (cfg : JwtCfg) (data : Json) (expSec : Json) (nowSec : Int) :
    (jwtPayload cfg data expSec nowSec).getField "iat" = some (Json.num nowSec) := by
  unfold jwtPayload objAssign
  simp only [List.foldl_cons, List.foldl_nil, Json.getField]
  rw [getKey_setKey_other _ _ _ _ (by decide), getKey_setKey_other _ _ _ _ (by decide),
    getKey_setKey_same]

theorem jwtPayload_exp (cfg : JwtCfg) (data : Json) (expSec : Json) (nowSec : Int) :
    (jwtPayload cfg data expSec nowSec).getField "exp" = some expSec := by
  unfold jwtPayload objAssign
  simp only [List.foldl_cons, List.foldl_nil, Json.getField]
  rw [getKey_setKey_other _ _ _ _ (by decide), getKey_setKey_same]

/-- C2: round trip of the token service.  For every payload object
`data`, a token freshly minted with a positive expiration verifies
under the same secret to the token's payload — the input object
augmented with `iat`, `exp` and the renewal flag — as long as no more
than `iat + exp` seconds have elapsed; once more than `iat + exp`
seconds have elapsed, verification of that same token returns null.
The external codec functions satisfy the pointwise facts that hold of
the real implementations (base64url output never contains `'.'`, and
decoding inverts encoding). -/
theorem c2_token_roundtrip
    (hm : List Char → List Char → List Char) (b64uF : List Char → List Char)
    (j64uF : Json → List Char) (u64jF : List Char → Json)
    (cfg : JwtCfg) (kvs : List (String × Json)) (secret : List Char)
    (expMin nowSec nowMs nowMs2 : Int) (hexp : 0 < expMin)
    (hh : '.' ∉ j64uF jwtHeader)
    (hp : '.' ∉ j64uF (jwtPayload cfg (Json.obj kvs) (.num (expMin * 60)) nowSec))
    (hs : '.' ∉ b64uF (hm (j64uF jwtHeader ++ '.' ::
            j64uF (jwtPayload cfg (Json.obj kvs) (.num (expMin * 60)) nowSec)) secret))
    (hrt : u64jF (j64uF (jwtPayload cfg (Json.obj kvs) (.num (expMin * 60)) nowSec))
            = jwtPayload cfg (Json.obj kvs) (.num (expMin * 60)) nowSec)
    (hfresh : nowMs ≤ 1000 * (nowSec + expMin * 60))
    (hlate : 1000 * (nowSec + expMin * 60) < nowMs2) :
    jwtVerify hm b64uF u64jF
        (jwtCreate hm b64uF j64uF cfg (Json.obj kvs) secret (some expMin) nowSec) secret nowMs
      = some (jwtPayload cfg (Json.obj kvs) (.num (expMin * 60)) nowSec)
    ∧ jwtVerify hm b64uF u64jF
        (jwtCreate hm b64uF j64uF cfg (Json.obj kvs) secret (some expMin) nowSec) secret nowMs2
      = none := by
  have hexp60 : ¬ (expMin * 60 = 0) := by omega
  have hExpOf : jwtExpOf cfg (Json.obj kvs) (some expMin) = Json.num (expMin * 60) := by
    simp only [jwtExpOf]
    rw [if_pos (by simpa using hexp60)]
  have hCreate : jwtCreate hm b64uF j64uF cfg (Json.obj kvs) secret (some expMin) nowSec
      = j64uF jwtHeader ++ '.' ::
        (j64uF (jwtPayload cfg (Json.obj kvs) (.num (expMin * 60)) nowSec) ++ '.' ::
         b64uF (hm (j64uF jwtHeader ++ '.' ::
           j64uF (jwtPayload cfg (Json.obj kvs) (.num (expMin * 60)) nowSec)) secret)) := by
    unfold jwtCreate
    rw [hExpOf]
  have hExpired : ∀ ms : Int,
      jwtExpired (jwtPayload cfg (Json.obj kvs) (.num (expMin * 60)) nowSec) ms
        = decide (1000 * (nowSec + expMin * 60) < ms) := by
    intro ms
    unfold jwtExpired
    rw [jwtPayload_iat, jwtPayload_exp]
  constructor
  · rw [hCreate]
    unfold jwtVerify
    rw [splitDot_token _ _ _ hh hp hs]
    simp only [hrt, hExpired nowMs, beq_self_eq_true, Bool.true_and]
    rw [if_pos (by simp; omega)]
  · rw [hCreate]
    unfold jwtVerify
    rw [splitDot_token _ _ _ hh hp hs]
    simp only [hrt, hExpired nowMs2, beq_self_eq_true, Bool.true_and]
    rw [if_neg (by simp; omega)]

/-- Witness for `c2_token_roundtrip` with trivial codec instantiations
that satisfy the pointwise hypotheses at the used values. -/
theorem c2_token_roundtrip_witness :
    jwtVerify (fun _ _ => ['g']) id
        (fun _ => jwtPayload {} (Json.obj [("username", .str "alice")]) (.num 60) 0)
        (jwtCreate (fun _ _ => ['g']) id (fun _ => ['x']) {}
          (Json.obj [("username", .str "alice")]) ['s'] (some 1) 0) ['s'] 0
      = some (jwtPayload {} (Json.obj [("username", .str "alice")]) (.num 60) 0)
    ∧ jwtVerify (fun _ _ => ['g']) id
        (fun _ => jwtPayload {} (Json.obj [("username", .str "alice")]) (.num 60) 0)
        (jwtCreate (fun _ _ => ['g']) id (fun _ => ['x']) {}
          (Json.obj [("username", .str "alice")]) ['s'] (some 1) 0) ['s'] 60001
      = none :=
  c2_token_roundtrip (fun _ _ => ['g']) id (fun _ => ['x'])
    (fun _ => jwtPayload {} (Json.obj [("username", .str "alice")]) (.num 60) 0)
    {} [("username", .str "alice")] ['s'] 1 0 0 60001
    (by decide) (by decide) (by decide) (by decide) rfl (by decide) (by decide)

/-- C9: token verification recomputes the signature with the fixed
HMAC-SHA256 primitive over the token's first two encoded parts exactly
as given — the `alg` declared inside the token's own header is never
consulted (the header field is only fed, verbatim, to the HMAC).  Hence
a token is accepted (a non-null payload is returned) only when its
third part equals the base64url HMAC-SHA256 of `header.payload` under
the server secret, and the returned payload is the decoding of the
second part. -/
theorem c9_verify_signature
    (hm : List Char → List Char → List Char) (b64uF : List Char → List Char)
    (u64jF : List Char → Json) (jwt secret : List Char) (nowMs : Int) (pd : Json)
    (hok : jwtVerify hm b64uF u64jF jwt secret nowMs = some pd) :
    ∃ header payload signature,
      (splitDot (jwt ++ ['.', '.'])).take 3 = [header, payload, signature]
      ∧ signature = b64uF (hm (header ++ '.' :: payload) secret)
      ∧ pd = u64jF payload
      ∧ jwtExpired pd nowMs = false := by
  unfold jwtVerify at hok
  rcases hl : (splitDot (jwt ++ ['.', '.'])).take 3 with _ | ⟨a, _ | ⟨b, _ | ⟨c, _ | ⟨d, t⟩⟩⟩⟩ <;>
    rw [hl] at hok <;> dsimp only at hok
  · exact absurd hok (by simp)
  · exact absurd hok (by simp)
  · exact absurd hok (by simp)
  · refine ⟨a, b, c, rfl, ?_⟩
    by_cases hc : (c == b64uF (hm (a ++ '.' :: b) secret)
        && !jwtExpired (u64jF b) nowMs) = true
    · rw [if_pos hc] at hok
      rcases Bool.and_eq_true_iff.mp hc with ⟨h1, h2⟩
      have hpd : pd = u64jF b := (Option.some.inj hok).symm
      refine ⟨eq_of_beq h1, hpd, ?_⟩
      rw [hpd]
      simpa using h2
    · rw [if_neg hc] at hok
      exact absurd hok (by simp)
  · exact absurd hok (by simp)

/-- Witness for `c9_verify_signature`: a concrete accepted token under
trivial codec instantiations. -/
theorem c9_verify_signature_witness :
    ∃ header payload signature,
      (splitDot (('h' :: '.' :: 'p' :: '.' :: 'g' :: []) ++ ['.', '.'])).take 3
        = [header, payload, signature]
      ∧ signature = id ((fun _ _ => ['g']) (header ++ '.' :: payload) ['s'])
      ∧ Json.obj [] = (fun _ => Json.obj []) payload
      ∧ jwtExpired (Json.obj []) 0 = false :=
  c9_verify_signature (fun _ _ => ['g']) id (fun _ => Json.obj [])
    ('h' :: '.' :: 'p' :: '.' :: 'g' :: []) ['s'] 0 (Json.obj []) rfl

/-! ### C3: requestMax / uploadMax enforcement in the simple body parsers

Models of `bodyParseText`, `bodyParseUrlEnc` and `bodyParseOctet`
(bin/serverware.js lines 324-364).  The request stream is a list of
data chunks; the `Promise` outcome is an `Except`: `.error` models
`reject`, `.ok` models `resolve`. -/

/-- `bodyParseText` (lines 340-351): accumulates utf-8 chunks, silently
dropping any chunk that would make the accumulated body reach `limit`
(`if (raw.length+chunk.length<limit) raw += chunk`), then resolves with
the accumulated text.  The only rejection is a stream error (500); no
413 is ever produced. -/
def bodyParseText (limit : Nat) (chunks : List (List Char)) : Except HttpErr (List Char) :=
  .ok (chunks.foldl (fun raw c => if raw.length + c.length < limit then raw ++ c else raw) [])

/-- `bodyParseUrlEnc` (lines 353-364): accumulates `ctx.request.raw`
exactly as the text parser and resolves with `qs.parse(raw)` (the
querystring decoder is the abstract parameter `qsParse`) together with
the raw text; again the only rejection is a stream error (500). -/
def bodyParseUrlEnc (qsParse : List Char → Json) (limit : Nat) (chunks : List (List Char)) :
    Except HttpErr (Json × List Char) :=
  let raw := chunks.foldl (fun raw c => if raw.length + c.length < limit then raw ++ c else raw) []
  .ok (qsParse raw, raw)

/-- `bodyParseOctet` (lines 324-338): while `limit > size`, adds the
whole chunk to the temp file and to the size; on end it resolves with
the size and the written bytes.  The only rejections are stream errors
(500); no 413 is ever produced. -/
def bodyParseOctet (limit : Nat) (chunks : List (List Char)) :
    Except HttpErr (Nat × List Char) :=
  .ok (chunks.foldl (fun st c => if st.1 < limit then (st.1 + c.length, st.2 ++ c) else st)
    (0, []))

/-- C3 counterexample: the claim requires any overflow of `requestMax`
or `uploadMax` to fail the request with status 413; but with
`requestMax = 1` a two-byte text (or urlencoded) body resolves
successfully with a truncated body, and with `uploadMax = 1` a
four-byte octet body resolves successfully having written two bytes —
none of the three parsers ever rejects with 413. -/
theorem c3_counterexample :
    1 < (['a', 'b'] : List Char).length
    ∧ bodyParseText 1 [['a', 'b']] = .ok []
    ∧ bodyParseUrlEnc (fun _ => Json.obj []) 1 [['a', 'b']] = .ok (Json.obj [], [])
    ∧ bodyParseOctet 1 [['a', 'b'], ['c', 'd']] = .ok (2, ['a', 'b']) :=
  ⟨by decide, rfl, rfl, rfl⟩

theorem bodyFold_length_lt (limit : Nat) (chunks : List (List Char)) (acc : List Char)
    (hl : acc.length < limit) :
    (chunks.foldl (fun raw c => if raw.length + c.length < limit then raw ++ c else raw)
      acc).length < limit := by
  induction chunks generalizing acc with
  | nil => exact hl
  | cons c cs ih =>
      simp only [List.foldl_cons]
      by_cases hc : acc.length + c.length < limit
      · rw [if_pos hc]
        exact ih _ (by simpa using hc)
      · rw [if_neg hc]
        exact ih _ hl

theorem octetFold_size_le (limit M : Nat) (chunks : List (List Char)) (acc : Nat × List Char)
    (hM : ∀ c ∈ chunks, c.length ≤ M) (hacc : acc.1 ≤ limit + M) (heq : acc.2.length = acc.1) :
    ((chunks.foldl (fun st c => if st.1 < limit then (st.1 + c.length, st.2 ++ c) else st)
        acc).1 ≤ limit + M)
    ∧ ((chunks.foldl (fun st c => if st.1 < limit then (st.1 + c.length, st.2 ++ c) else st)
        acc).2.length
      = (chunks.foldl (fun st c => if st.1 < limit then (st.1 + c.length, st.2 ++ c) else st)
        acc).1) := by
  induction chunks generalizing acc with
  | nil => exact ⟨hacc, heq ▸ rfl⟩
  | cons c cs ih =>
      have hcM : c.length ≤ M := hM c (List.mem_cons_self c cs)
      have hcs : ∀ d ∈ cs, d.length ≤ M := fun d hd => hM d (List.mem_cons_of_mem c hd)
      simp only [List.foldl_cons]
      by_cases hc : acc.1 < limit
      · rw [if_pos hc]
        exact ih (acc.1 + c.length, acc.2 ++ c) hcs (by omega) (by simp [heq])
      · rw [if_neg hc]
        exact ih acc hcs hacc heq

/-- C3 as amended: instead of rejecting with 413, the three simple body
parsers silently truncate.  The text and urlencoded parsers always
resolve and keep the in-memory body strictly under `requestMax`
(overflowing chunks are dropped); the octet parser always resolves,
stops consuming once `uploadMax` is reached, and its final size is at
most `uploadMax` plus one chunk length.  None of them produces a 413. -/
theorem c3_amended (limit M : Nat) (chunks : List (List Char))
    (qsParse : List Char → Json) (hl : 0 < limit) (hM : ∀ c ∈ chunks, c.length ≤ M) :
    (∃ r, bodyParseText limit chunks = .ok r ∧ r.length < limit)
    ∧ (∃ j raw, bodyParseUrlEnc qsParse limit chunks = .ok (j, raw) ∧ raw.length < limit)
    ∧ (∃ sz bytes, bodyParseOctet limit chunks = .ok (sz, bytes) ∧ bytes.length = sz
        ∧ sz ≤ limit + M) := by
  refine ⟨⟨_, rfl, ?_⟩, ⟨_, _, rfl, ?_⟩, ⟨_, _, rfl, ?_, ?_⟩⟩
  · exact bodyFold_length_lt limit chunks [] (by simpa using hl)
  · exact bodyFold_length_lt limit chunks [] (by simpa using hl)
  · exact (octetFold_size_le limit M chunks (0, []) hM (by omega) rfl).2
  · exact (octetFold_size_le limit M chunks (0, []) hM (by omega) rfl).1

/-- Witness for `c3_amended` at a concrete limit and chunk list. -/
theorem c3_amended_witness :
    ∃ r, bodyParseText 8 [['a'], ['b', 'c']] = .ok r ∧ r.length < 8 :=
  (c3_amended 8 2 [['a'], ['b', 'c']] (fun _ => Json.obj []) (by decide)
    (by intro c hc; fin_cases hc <;> simp)).1

/-! ### C4: multipart/form-data parsing, upload overflow and temp files

Model of `bodyParseFormData` (bin/serverware.js lines 178-255).  The
Buffer operations (`indexOf`, `slice`, `split`, `includes`, the two
content-disposition regular expressions) are implemented on `List Char`
with JavaScript semantics.  The file system visible to the parser is a
list of (temp-file name, contents) pairs: `fs.createWriteStream`
creates/truncates an entry, `dest.write` appends to it; nothing in the
parser (in particular not `terminate`, whose `dest.end()` call is dead
code behind the misspelled `dest.writeable`) ever removes an entry.
`uniqueID(8,36)` is random in the source; it is modelled by the
injected name source `names` indexed by a counter.  The 413 error
messages interpolate the limits in the source; the model uses the
constant prefixes of those messages. -/

/-- JavaScript `hay.indexOf(needle, start)` on buffers: the least index
`i ≥ start` at which `needle` occurs, or `-1`. -/
def findFrom (hay needle : List Char) (start : Nat) : Int :=
  match (List.range (hay.length + 1)).filter
      (fun i => decide (start ≤ i) && needle.isPrefixOf (hay.drop i)) with
  | [] => -1
  | i :: _ => (i : Int)

/-- JavaScript `buf.slice(start, stop)` with negative-index and
clamping semantics. -/
def jsSliceSE (l : List Char) (start stop : Int) : List Char :=
  let n : Int := l.length
  let s := if start < 0 then max (n + start) 0 else min start n
  let e := if stop < 0 then max (n + stop) 0 else min stop n
  (l.take e.toNat).drop s.toNat

/-- JavaScript `buf.slice(start)`. -/
def jsSliceFrom (l : List Char) (start : Int) : List Char :=
  jsSliceSE l start l.length

/-- Fuelled worker for `splitSeq` (structural recursion on the fuel so
that concrete runs reduce in the kernel; the fuel is the input length,
which always suffices because each step consumes at least one
character). -/
def splitSeqF (sep : List Char) : Nat → List Char → List (List Char)
  | _, [] => [[]]
  | 0, l => [l]
  | fuel + 1, c :: cs =>
      if 0 < sep.length ∧ sep.isPrefixOf (c :: cs) then
        [] :: splitSeqF sep fuel (List.drop (sep.length - 1) cs)
      else
        match splitSeqF sep fuel cs with
        | [] => [[c]]
        | p :: ps => (c :: p) :: ps

/-- JavaScript `s.split(sep)` for a non-empty separator sequence. -/
def splitSeq (sep l : List Char) : List (List Char) := splitSeqF sep l.length l

/-- JavaScript `s.includes(needle)`. -/
def containsSeq (hay needle : List Char) : Bool := findFrom hay needle 0 != -1

/-- JavaScript `String.prototype.trim` whitespace test. -/
def isWS (c : Char) : Bool := c == ' ' || c == '\t' || c == '\r' || c == '\n'

/-- JavaScript `s.trim()`. -/
def trimWS (l : List Char) : List Char :=
  ((l.dropWhile isWS).reverse.dropWhile isWS).reverse

/-- First capture group of the regular expressions
`/ name="?([^";]*)/` and `/filename="?([^";]*)/`: the text after the
first occurrence of `marker`, past an optional double quote, up to the
first `"` or `;`.  Returns `none` when the marker does not occur (the
JavaScript `match` returns `null` and indexing it throws). -/
def matchParam (s marker : List Char) : Option (List Char) :=
  let i := findFrom s marker 0
  if i < 0 then none
  else
    let rest := jsSliceFrom s (i + marker.length)
    let rest := match rest with
      | '"' :: r => r
      | r => r
    some (rest.takeWhile (fun c => !(c == '"' || c == ';')))

/-- Assoc-list override-or-append on `List Char` keys (JavaScript
object assignment `o[k] = v`). -/
def setPairC (l : List (List Char × List Char)) (k v : List Char) :
    List (List Char × List Char) :=
  if l.any (fun p => p.1 == k) then l.map (fun p => if p.1 == k then (k, v) else p)
  else l ++ [(k, v)]

/-- Subheader map assignment: values are `Option` because a header line
without a colon stores JavaScript `undefined`. -/
def setHdr (l : List (List Char × Option (List Char))) (k : List Char)
    (v : Option (List Char)) : List (List Char × Option (List Char)) :=
  if l.any (fun p => p.1 == k) then l.map (fun p => if p.1 == k then (k, v) else p)
  else l ++ [(k, v)]

/-- Subheader lookup; outer `none` models a missing key. -/
def getHdr : List (List Char × Option (List Char)) → List Char → Option (Option (List Char))
  | [], _ => none
  | (a, b) :: rest, k => if a == k then some b else getHdr rest k

/-- The file record built by the multipart parser for each file part:
`{size, filename, mime, tempFile}`, in the insertion order of the
source. -/
structure FileRec where
  size : Int
  filename : List Char
  mime : List Char
  tempFile : String
deriving Repr, DecidableEq

/-- Configuration closed over by `bodyParseFormData`: the boundary
(`'--' + ctx.request.boundary`), the `requestMax`/`uploadMax` limits,
and the temp-name source. -/
structure FormCfg where
  boundary : List Char
  max : Nat
  upload : Int
  names : Nat → String

/-- Mutable state of the parser: the mode flag, the open write stream,
the collected parts, the scan buffer, the temp-file system, and the
name counter. -/
structure FormState where
  streamingToFile : Bool := false
  dest : Option String := none
  files : List FileRec := []
  fields : List (List Char × List Char) := []
  buffer : List Char := []
  fs : List (String × List Char) := []
  nameCtr : Nat := 0
deriving Repr, DecidableEq

/-- `fs.createWriteStream(name)` creates (or truncates) the temp file. -/
def fsCreate (fs : List (String × List Char)) (n : String) : List (String × List Char) :=
  if fs.any (fun p => p.1 == n) then fs.map (fun p => if p.1 == n then (n, []) else p)
  else fs ++ [(n, [])]

/-- `dest.write(data)` appends to the open temp file. -/
def fsAppend (fs : List (String × List Char)) (n : String) (d : List Char) :
    List (String × List Char) :=
  fs.map (fun p => if p.1 == n then (p.1, p.2 ++ d) else p)

/-- Whether a temp file of the given name exists. -/
def fsHas (fs : List (String × List Char)) (n : String) : Bool :=
  fs.any (fun p => p.1 == n)

/-- Minimal JSON string escaping used by the `overflow()` length
estimate (the inputs under consideration need no further escapes). -/
def escJson (s : List Char) : List Char :=
  s.foldr (fun c acc =>
    (if c == '"' || c == '\\' then ['\\', c]
     else if c == '\n' then ['\\', 'n']
     else if c == '\r' then ['\\', 'r']
     else if c == '\t' then ['\\', 't']
     else [c]) ++ acc) []

/-- A JSON string literal. -/
def qstr (s : List Char) : List Char := '"' :: (escJson s ++ ['"'])

/-- Decimal digits of an integer. -/
def intChars (n : Int) : List Char := (toString n).data

/-- `JSON.stringify` (indent 2) of one file record, as produced inside
the `files` array of the parts object. -/
def fileRecJson (f : FileRec) : List Char :=
  "    \x7b\n      \"size\": ".data ++ intChars f.size
  ++ ",\n      \"filename\": ".data ++ qstr f.filename
  ++ ",\n      \"mime\": ".data ++ qstr f.mime
  ++ ",\n      \"tempFile\": ".data ++ qstr f.tempFile.data
  ++ "\n    \x7d".data

/-- Join with separator. -/
def joinSep (sep : List Char) : List (List Char) → List Char
  | [] => []
  | [x] => x
  | x :: xs => x ++ sep ++ joinSep sep xs

/-- `jxFromCircular(parts)`: `JSON.stringify(parts, dedup, 2)` of the
parts object `{files: [...], field: "value", ...}` (no circular
references arise here). -/
def partsJson (files : List FileRec) (fields : List (List Char × List Char)) : List Char :=
  let filesJson := if files.isEmpty then "[]".data
    else "[\n".data ++ joinSep ",\n".data (files.map fileRecJson) ++ "\n  ]".data
  "\x7b\n  \"files\": ".data ++ filesJson
  ++ (fields.map (fun p => ",\n  ".data ++ qstr p.1 ++ ": ".data ++ qstr p.2)).flatten
  ++ "\n\x7d".data

/-- `overflow()`: the serialized parts exceed `requestMax`. -/
def overflow (cfg : FormCfg) (st : FormState) : Bool :=
  (partsJson st.files st.fields).length > cfg.max

/-- Values thrown inside the multipart parser: HTTP error objects,
strings (the empty string is FALSY and makes `terminate` resolve — this
is how the final boundary ends parsing), and `TypeError`s from
accessing a property of `undefined`. -/
inductive FormErr where
  | http (e : HttpErr)
  | str (s : List Char)
  | typeErr
deriving Repr, DecidableEq

/-- JavaScript falsiness of a thrown value (`terminate`'s `if (e)`). -/
def errFalsy : FormErr → Bool
  | .str [] => true
  | _ => false

/-- The 413 thrown when `overflow()` is detected (source message:
`Body overflow detected (max: ...)`). -/
def overflowErr : HttpErr := ⟨413, "Body overflow detected"⟩

/-- The 413 thrown when a file part exceeds `uploadMax` (source
message: `File upload limit (...) exceeded`). -/
def uploadErr : HttpErr := ⟨413, "File upload limit exceeded"⟩

/-- Replace the size of the last (active) file record. -/
def setLastSize (files : List FileRec) (n : Int) : List FileRec :=
  match files with
  | [] => []
  | [f] => [{ f with size := n }]
  | f :: rest => f :: setLastSize rest n

/-- `dest.write(data)` on the state — a no-op when no stream is open
(unreachable in streaming mode). -/
def destWrite (st : FormState) (d : List Char) : FormState :=
  match st.dest with
  | some n => { st with fs := fsAppend st.fs n d }
  | none => st

/-- One iteration of the `while (buffer.length > boundary.length+4)`
loop of the `data` handler (bin/serverware.js lines 204-250), faithful
to the source's order of effects: in particular the write stream for a
file part is created before the `overflow()` check, and the 413 upload
check happens before the chunk portion is written. -/
def loopStep (cfg : FormCfg) (st : FormState) : FormState ⊕ (FormErr × FormState) :=
  if st.streamingToFile = false then
    if findFrom st.buffer cfg.boundary 0 != 0 then
      .inr (.str "Malformed starting boundary!".data, st)
    else if findFrom st.buffer ['-', '-'] cfg.boundary.length - (cfg.boundary.length : Int) == 0 then
      .inr (.str [], st)
    else
      let i := findFrom st.buffer "\r\n\r\n".data 0
      let raw := jsSliceSE st.buffer 0 i
      let st1 := { st with buffer := jsSliceFrom st.buffer (i + 4) }
      let head := ((splitSeq "\r\n".data raw).filter (fun l => l.length != 0)).drop 1
      let subheaders := head.foldl (fun acc h =>
        let ps := splitSeq [':'] h
        setHdr acc ((ps.headD []).map Char.toLower) ps[1]?) []
      match getHdr subheaders "content-disposition".data with
      | some (some cd) =>
          if containsSeq cd "filename=".data = false then
            if containsSeq cd " name=".data = false then
              .inr (.str "Missing required name field!".data, st1)
            else
              match matchParam cd " name=".data with
              | some name =>
                  let n := findFrom st1.buffer "\r\n".data 0
                  let st2 := { st1 with
                    fields := setPairC st1.fields name (jsSliceSE st1.buffer 0 n) }
                  if overflow cfg st2 then .inr (.http overflowErr, st2)
                  else .inl { st2 with buffer := jsSliceFrom st2.buffer (n + 2) }
              | none => .inr (.typeErr, st1)
          else
            match matchParam cd "filename=".data with
            | some fname =>
                let mime := trimWS (match getHdr subheaders "content-type".data with
                  | some (some v) => if v.length != 0 then v else "text/plain".data
                  | _ => "text/plain".data)
                let tmpName := cfg.names st1.nameCtr
                let file : FileRec := ⟨0, fname, mime, tmpName⟩
                let st2 := { st1 with
                  nameCtr := st1.nameCtr + 1
                  fs := fsCreate st1.fs tmpName
                  dest := some tmpName
                  files := st1.files ++ [file] }
                if overflow cfg st2 then .inr (.http overflowErr, st2)
                else .inl { st2 with streamingToFile := true }
            | none => .inr (.typeErr, st1)
      | _ => .inr (.typeErr, st1)
  else
    match st.files.getLast? with
    | some active =>
        let nextBoundary := findFrom st.buffer cfg.boundary 0
        if nextBoundary != -1 then
          let newSize := active.size + (nextBoundary - 2)
          let st1 := { st with files := setLastSize st.files newSize }
          if newSize > cfg.upload then .inr (.http uploadErr, st1)
          else
            let st2 := destWrite st1 (jsSliceSE st1.buffer 0 (nextBoundary - 2))
            .inl { st2 with
              buffer := jsSliceFrom st2.buffer nextBoundary
              streamingToFile := false }
        else
          let portionSize : Int := (st.buffer.length : Int) - cfg.boundary.length - 2
          let newSize := active.size + portionSize
          let st1 := { st with files := setLastSize st.files newSize }
          if newSize > cfg.upload then .inr (.http uploadErr, st1)
          else
            let st2 := destWrite st1 (jsSliceSE st1.buffer 0 portionSize)
            .inl { st2 with buffer := jsSliceFrom st2.buffer portionSize }
    | none => .inr (.typeErr, st)

/-- The scan loop, fuelled (the source loop can even diverge on a
buffer that places the next boundary at offset zero while streaming;
the runs considered here terminate well within `buffer.length + 1`
iterations because every iteration consumes buffer). -/
def formLoop (cfg : FormCfg) : Nat → FormState → FormState ⊕ (FormErr × FormState)
  | 0, st => .inl st
  | fuel + 1, st =>
      if st.buffer.length > cfg.boundary.length + 4 then
        match loopStep cfg st with
        | .inl st' => formLoop cfg fuel st'
        | .inr e => .inr e
      else .inl st

/-- One `data` event: append the chunk to the buffer and run the scan
loop. -/
def processChunk (cfg : FormCfg) (st : FormState) (chunk : List Char) :
    FormState ⊕ (FormErr × FormState) :=
  let st := { st with buffer := st.buffer ++ chunk }
  formLoop cfg (st.buffer.length + 1) st

/-- Outcome of the parse promise: `resolve` with the collected parts or
`reject` with the thrown value. -/
inductive FormResult where
  | ok (files : List FileRec) (fields : List (List Char × List Char))
  | err (e : FormErr)
deriving Repr, DecidableEq

/-- `terminate(e)` (lines 192-197): a falsy `e` (the end event's
`undefined`, or the empty string thrown at the final boundary) resolves
with the parts; anything else rejects.  No file is ever deleted (and
`dest.end()` is skipped because of the `dest.writeable` misspelling). -/
def terminateForm (st : FormState) (e : Option FormErr) : FormResult :=
  match e with
  | none => .ok st.files st.fields
  | some e => if errFalsy e then .ok st.files st.fields else .err e

/-- `bodyParseFormData`'s event sequence over a list of chunks followed
by the `end` event. -/
def runChunks (cfg : FormCfg) (st : FormState) : List (List Char) → FormResult × FormState
  | [] => (terminateForm st none, st)
  | c :: rest =>
      match processChunk cfg st c with
      | .inl st' => runChunks cfg st' rest
      | .inr (e, st') => (terminateForm st' (some e), st')

/-- State component of a loop outcome. -/
def stOf : FormState ⊕ (FormErr × FormState) → FormState
  | .inl s => s
  | .inr (_, s) => s

theorem fsHas_map_fst (fs : List (String × List Char))
    (f : String × List Char → String × List Char) (hf : ∀ p, (f p).1 = p.1) (m : String)
    (h : fsHas fs m = true) : fsHas (fs.map f) m = true := by
  unfold fsHas at *
  rw [List.any_map]
  have he : ((fun p => p.1 == m) ∘ f) = (fun p => p.1 == m) := by
    funext p
    simp only [Function.comp_apply, hf]
  rw [he]
  exact h

theorem fsHas_fsCreate (fs : List (String × List Char)) (n m : String)
    (h : fsHas fs m = true) : fsHas (fsCreate fs n) m = true := by
  unfold fsCreate
  by_cases hany : fs.any (fun p => p.1 == n) = true
  · rw [if_pos hany]
    refine fsHas_map_fst fs _ ?_ m h
    intro p
    by_cases hp : (p.1 == n) = true
    · rw [if_pos hp]
      exact (eq_of_beq hp).symm
    · rw [if_neg hp]
  · rw [if_neg hany]
    unfold fsHas at *
    rw [List.any_append]
    simp [h]

theorem fsHas_fsAppend (fs : List (String × List Char)) (n : String) (d : List Char)
    (m : String) (h : fsHas fs m = true) : fsHas (fsAppend fs n d) m = true := by
  unfold fsAppend
  refine fsHas_map_fst fs _ ?_ m h
  intro p
  by_cases hp : (p.1 == n) = true
  · rw [if_pos hp]
  · rw [if_neg hp]

theorem fsHas_destWrite (st : FormState) (d : List Char) (m : String)
    (h : fsHas st.fs m = true) : fsHas (destWrite st d).fs m = true := by
  unfold destWrite
  cases hd : st.dest with
  | none => exact h
  | some n => exact fsHas_fsAppend st.fs n d m h

theorem loopStep_fs (cfg : FormCfg) (st : FormState) (m : String)
    (h : fsHas st.fs m = true) : fsHas (stOf (loopStep cfg st)).fs m = true := by
  unfold loopStep
  dsimp only
  repeat' split
  all_goals first
    | exact h
    | exact fsHas_fsCreate _ _ _ h
    | exact fsHas_destWrite _ _ _ h

theorem formLoop_fs (cfg : FormCfg) (fuel : Nat) (st : FormState) (m : String)
    (h : fsHas st.fs m = true) : fsHas (stOf (formLoop cfg fuel st)).fs m = true := by
  induction fuel generalizing st with
  | zero => exact h
  | succ n ih =>
      unfold formLoop
      split
      · cases hls : loopStep cfg st with
        | inl st' =>
            have := loopStep_fs cfg st m h
            rw [hls] at this
            exact ih st' this
        | inr e =>
            have := loopStep_fs cfg st m h
            rw [hls] at this
            exact this
      · exact h

theorem processChunk_fs (cfg : FormCfg) (st : FormState) (c : List Char) (m : String)
    (h : fsHas st.fs m = true) : fsHas (stOf (processChunk cfg st c)).fs m = true := by
  unfold processChunk
  exact formLoop_fs cfg _ _ m h

theorem runChunks_fs (cfg : FormCfg) (st : FormState) (chunks : List (List Char)) (m : String)
    (h : fsHas st.fs m = true) : fsHas (runChunks cfg st chunks).2.fs m = true := by
  induction chunks generalizing st with
  | nil => exact h
  | cons c rest ih =>
      unfold runChunks
      cases hpc : processChunk cfg st c with
      | inl st' =>
          have := processChunk_fs cfg st c m h
          rw [hpc] at this
          exact ih st' this
      | inr e =>
          rcases e with ⟨e, st'⟩
          have := processChunk_fs cfg st c m h
          rw [hpc] at this
          exact this

/-- The multipart configuration of the S6-style scenario: boundary `B`,
default `requestMax` of 64K, `uploadMax` of 5 bytes, one temp name. -/
def c4cfg : FormCfg := ⟨"--B".data, 65536, 5, fun _ => "tmp0.tmp"⟩

/-- First chunk: boundary, sub-headers declaring a file part, blank
line, and the first 10 bytes of file content. -/
def c4chunk1 : List Char :=
  ("--B\r\nContent-Disposition: form-data; name=\"f\"; filename=\"a.txt\"\r\n\r\n0123456789").data

/-- Second chunk: the final boundary. -/
def c4chunk2 : List Char := ("\r\n--B--\r\n").data

/-- C4 counterexample: a multipart upload whose single file part (10
bytes) exceeds `uploadMax = 5` rejects with the 413 upload-limit error
— but the partially written temp file still EXISTS in the temp
directory afterwards (holding the 5 bytes streamed before the limit
hit); nothing unlinks it, contradicting the claim that it no longer
exists. -/
theorem c4_counterexample :
    (runChunks c4cfg {} [c4chunk1, c4chunk2]).1 = .err (.http uploadErr)
    ∧ fsHas (runChunks c4cfg {} [c4chunk1, c4chunk2]).2.fs "tmp0.tmp" = true
    ∧ (runChunks c4cfg {} [c4chunk1, c4chunk2]).2.fs = [("tmp0.tmp", "01234".data)] := by
  refine ⟨?_, ?_, ?_⟩ <;> decide

/-- C4 as amended: a multipart upload whose file part exceeds
`uploadMax` fails with 413, and the partially written temp file
REMAINS in the temp directory: the parser never deletes a temp file
(for every run, every existing temp file still exists afterwards), and
in the overflow run above the partial file holds the bytes written
before the limit was exceeded. -/
theorem c4_amended :
    (∀ cfg st chunks m, fsHas st.fs m = true →
        fsHas (runChunks cfg st chunks).2.fs m = true)
    ∧ (runChunks c4cfg {} [c4chunk1, c4chunk2]).1 = .err (.http uploadErr)
    ∧ (runChunks c4cfg {} [c4chunk1, c4chunk2]).2.fs = [("tmp0.tmp", "01234".data)] :=
  ⟨fun cfg st chunks m h => runChunks_fs cfg st chunks m h, by decide, by decide⟩

/-- Witness for `c4_amended` at a concrete starting file system. -/
theorem c4_amended_witness :
    fsHas (runChunks c4cfg { fs := [("keep.tmp", [])] } []).2.fs "keep.tmp" = true :=
  c4_amended.1 c4cfg { fs := [("keep.tmp", [])] } [] "keep.tmp" (by decide)

/-! ### C5: deep copy on query

Model of `jxDB.prototype.query` (jxDB.js lines 114-135).  Mutable
sharing is made explicit: a heap cell (`List Json` indexed by address)
holds the current value of each shared mutable object — in particular
the recipe's `defaults` object, which lives in the recipe/store
structure.  A query result is either `JVal.pure j` (an unshared value:
`jxCopy` deep-copies the jsonata result, and the `{}` fallback is a
fresh object each call) or `JVal.ref a` (an alias of heap cell `a`).
`jsonata(recipe.expression).evaluate(this.db, bindings)` is the
abstract parameter `jx`; `Except.error` models a thrown evaluation
error and `.ok none` an `undefined` result
(`verifyThat(tmp,'isNotDefined')` is true for `undefined` and `null`). -/

/-- A JavaScript value as returned to a caller: either unshared
(freshly deep-copied) or an alias of a mutable heap cell. -/
inductive JVal where
  | pure (j : Json) : JVal
  | ref (a : Nat) : JVal
deriving Repr

/-- Observe a value: dereference through the heap. -/
def readVal (h : List Json) (v : JVal) : Json :=
  match v with
  | .pure j => j
  | .ref a => h.getD a Json.null

/-- Mutate the object a returned value designates (e.g. assign one of
its fields).  Mutating an unshared value changes no shared state. -/
def mutateVal (h : List Json) (v : JVal) (j : Json) : List Json :=
  match v with
  | .pure _ => h
  | .ref a => h.set a j

/-- Query recipe fields used by `jxDB.prototype.query`
(`name`/`auth`/`filter` are handled by the callers). -/
structure QRecipe where
  expression : Option String := none
  defaults : Option JVal := none
  limit : Int := 0
  header : Option Json := none

/-- The `limit`/`header` post-processing applied to a copied array
result: `limit` keeps the head (positive) or tail (negative) slice when
the array is longer than `|limit|`; `header` is prepended. -/
def applyLimitHeader (r : QRecipe) (t : Json) : Json :=
  match t with
  | .arr xs =>
      let lmt := r.limit
      let xs := if lmt ≠ 0 ∧ xs.length > lmt.natAbs then
          (if lmt < 0 then xs.drop (xs.length - lmt.natAbs) else xs.take lmt.natAbs)
        else xs
      match r.header with
      | some hd => .arr (hd :: xs)
      | none => .arr xs
  | t => t

/-- `jxDB.prototype.query(recipeSpec, bindings)`: precheck failure (no
expression), an `undefined`/`null` result, or a thrown evaluation error
all return `recipe.defaults` — BY REFERENCE — or a fresh `{}` when no
defaults are defined; a defined result is deep-copied (`jxCopy`) before
the `limit`/`header` post-processing and returned unshared. -/
def query (jx : String → Json → Json → Except String (Option Json))
    (h : List Json) (db : Json) (r : QRecipe) (bindings : Json) : JVal :=
  let dflt : JVal := match r.defaults with
    | some d => d
    | none => .pure (.obj [])
  match r.expression with
  | none => dflt
  | some e =>
      match jx e db bindings with
      | .error _ => dflt
      | .ok none => dflt
      | .ok (some .null) => dflt
      | .ok (some t) => .pure (applyLimitHeader r t)

/-- The recipe of the C5 counterexample: no expression, defaults held
in heap cell 0. -/
def c5recipe : QRecipe := { expression := none, defaults := some (.ref 0) }

/-- An evaluator that is never consulted on the counterexample path. -/
def jxUnused : String → Json → Json → Except String (Option Json) := fun _ _ _ => .ok none

/-- C5 counterexample: the recipe's `defaults` object is `{x: 1}` (heap
cell 0).  The first query returns it by reference; mutating the
returned value to `{x: 2}` makes a subsequent identical query observe
`{x: 2}` instead of `{x: 1}` — the defaults-returning paths share
mutable structure with the recipe, contradicting the claim that this
holds on all return paths. -/
theorem c5_counterexample :
    readVal [Json.obj [("x", Json.num 1)]]
        (query jxUnused [Json.obj [("x", Json.num 1)]] (Json.obj []) c5recipe Json.null)
      = Json.obj [("x", Json.num 1)]
    ∧ readVal
        (mutateVal [Json.obj [("x", Json.num 1)]]
          (query jxUnused [Json.obj [("x", Json.num 1)]] (Json.obj []) c5recipe Json.null)
          (Json.obj [("x", Json.num 2)]))
        (query jxUnused
          (mutateVal [Json.obj [("x", Json.num 1)]]
            (query jxUnused [Json.obj [("x", Json.num 1)]] (Json.obj []) c5recipe Json.null)
            (Json.obj [("x", Json.num 2)]))
          (Json.obj []) c5recipe Json.null)
      = Json.obj [("x", Json.num 2)]
    ∧ Json.obj [("x", Json.num 1)] ≠ Json.obj [("x", Json.num 2)] :=
  ⟨rfl, rfl, by simp⟩

theorem getD_set_self (l : List Json) (a : Nat) (j : Json) (ha : a < l.length) :
    (l.set a j).getD a Json.null = j := by
  induction l generalizing a with
  | nil => simp at ha
  | cons x xs ih =>
      cases a with
      | zero => rfl
      | succ n =>
          simp only [List.set_cons_succ, List.getD, List.getElem?_cons_succ]
          have := ih n (by simpa using ha)
          simpa [List.getD] using this

/-- C5 as amended: the deep-copy guarantee holds exactly on the
success path — when the expression evaluates to a defined, non-null
value, the result is an unshared copy, and mutating it leaves a
subsequent identical query unchanged; but on every defaults-returning
path the recipe's `defaults` object itself is returned, so mutating the
returned value is observed by the next query (it returns the mutated
object). -/
theorem c5_amended (jx : String → Json → Json → Except String (Option Json))
    (h : List Json) (db : Json) (r : QRecipe) (b : Json) :
    (∀ e t j, r.expression = some e → jx e db b = .ok (some t) → t ≠ Json.null →
      readVal (mutateVal h (query jx h db r b) j)
          (query jx (mutateVal h (query jx h db r b) j) db r b)
        = readVal h (query jx h db r b))
    ∧ (∀ a j, r.expression = none → r.defaults = some (.ref a) → a < h.length →
      readVal (mutateVal h (query jx h db r b) j)
          (query jx (mutateVal h (query jx h db r b) j) db r b)
        = j) := by
  constructor
  · intro e t j he hjx ht
    unfold query
    rw [he]
    dsimp only
    rw [hjx]
    cases t with
    | null => exact absurd rfl ht
    | bool v => rfl
    | num v => rfl
    | str v => rfl
    | arr v => rfl
    | obj v => rfl
  · intro a j he hd ha
    unfold query
    rw [he, hd]
    dsimp only
    exact getD_set_self h a j ha

/-! ### C6/C10: mergekeys deep merge and jxDB.prototype.modify

Models of `Object.prototype.mergekeys` (bin/Extensions2JS.js lines
134-151) and `jxDB.prototype.modify` (jxDB.js lines 145-193).

`mergekeys` iterates the keys of the merged (right) operand: a
non-object value is assigned outright; for an object value the current
target value is kept if truthy (`this[key] = this[key] || fresh`) and
the merge recurses into it — when that kept value is a truthy
PRIMITIVE, JavaScript autoboxes it for the recursive call and the box
is discarded, so the primitive survives and the incoming object is
lost.  Arrays merge index-wise (their `Object.keys` are the indices).
Property assignment on arrays with non-index keys, and on primitives,
is invisible to JSON serialization and modelled as a no-op.

`jsonata(recipe.reference).evaluate(db,{ref})` and
`jsonata(recipe.unique).evaluate(db)` are the abstract parameters
`refEval`/`uniqueEval`; `.error` models a thrown evaluation error and
`.ok none` an `undefined` result. -/

mutual
/-- Structural size of a JSON tree (an executable bound on nesting
depth, used to fuel the merge recursions). -/
def jsize : Json → Nat
  | .null => 1
  | .bool _ => 1
  | .num _ => 1
  | .str _ => 1
  | .arr xs => 1 + jsizeL xs
  | .obj kvs => 1 + jsizeO kvs

/-- Size of an array's elements. -/
def jsizeL : List Json → Nat
  | [] => 0
  | x :: xs => 1 + jsize x + jsizeL xs

/-- Size of an object's entries. -/
def jsizeO : List (String × Json) → Nat
  | [] => 0
  | (_, x) :: xs => 1 + jsize x + jsizeO xs
end

/-- Parse an all-digits property key as an array index. -/
def digitsVal (l : List Char) : Option Nat :=
  if l ≠ [] ∧ l.all (fun c => c.isDigit) then
    some (l.foldl (fun n c => n * 10 + (c.toNat - '0'.toNat)) 0)
  else none

/-- JavaScript property read `o[k]`; `none` is `undefined`. -/
def jsGetProp : Json → String → Option Json
  | .obj kvs, k => getKey kvs k
  | .arr xs, k =>
      match digitsVal k.data with
      | some i => xs[i]?
      | none => none
  | _, _ => none

/-- Assigning beyond an array's length leaves holes, which serialize
as `null`. -/
def setPad (xs : List Json) (i : Nat) (v : Json) : List Json :=
  if i < xs.length then xs.set i v
  else xs ++ List.replicate (i - xs.length) Json.null ++ [v]

/-- JavaScript property write `o[k] = v`, up to JSON observability:
named properties of arrays and properties of (boxed) primitives do not
survive serialization and are dropped. -/
def jsSetProp : Json → String → Json → Json
  | .obj kvs, k, v => .obj (setKey kvs k v)
  | .arr xs, k, v =>
      (match digitsVal k.data with
       | some i => .arr (setPad xs i v)
       | none => .arr xs)
  | t, _, _ => t

/-- The fresh target initialized when the current value is falsy: an
empty array when the merged value is an array, an empty object
otherwise. -/
def freshFor : Json → Json
  | .arr _ => .arr []
  | _ => .obj []

/-- Index keys of an array, as `Object.keys` yields them. -/
def indexedFrom (i : Nat) : List Json → List (String × Json)
  | [] => []
  | x :: xs => (toString i, x) :: indexedFrom (i + 1) xs

/-- `Object.keys(merged)` with values: object entries, or array
elements under their index keys. -/
def entriesOf : Json → List (String × Json)
  | .obj kvs => kvs
  | .arr xs => indexedFrom 0 xs
  | _ => []

/-- Fuelled worker of `mergekeys` (the fuel bounds the nesting depth of
the merged operand; `sizeOf` always suffices, so the zero-fuel arm is
unreachable). -/
def mergekeysF : Nat → Json → Json → Json
  | 0, t, _ => t
  | fuel + 1, t, m =>
      if jsIsObj m then
        (entriesOf m).foldl (fun acc p =>
          if jsIsObj p.2 then
            let tgt : Json := match jsGetProp acc p.1 with
              | some c => if jsTruthy c then c else freshFor p.2
              | none => freshFor p.2
            if jsIsObj tgt then jsSetProp acc p.1 (mergekeysF fuel tgt p.2)
            else acc
          else jsSetProp acc p.1 p.2) t
      else t

/-- `t.mergekeys(m)`: merge the keys of `m` into `t` (right operand
drives the iteration; result is the updated `t`). -/
def mergekeys (t m : Json) : Json := mergekeysF (jsize m) t m

/-- `helpers.jxCopy`: `JSON.parse(JSON.stringify(x))`, the identity on
the pure JSON trees of this model (its JavaScript purpose is to
unshare, which the pure model does not need to track here). -/
def jxCopy (j : Json) : Json := j

/-- Modelled from the spec: the right-wins DEEP merge that the claim
asserts (`deepMerge(defaults, existing, incoming)` with right-wins at
every nesting level): objects merge recursively per key; any other
right-hand value (array or scalar) replaces the left. -/
def deepMergeRWF : Nat → Json → Json → Json
  | 0, _, b => b
  | fuel + 1, a, b =>
      match a, b with
      | .obj akvs, .obj bkvs =>
          .obj ((akvs.map (fun p =>
              match getKey bkvs p.1 with
              | some bv => (p.1, deepMergeRWF fuel p.2 bv)
              | none => p))
            ++ bkvs.filter (fun q => !(akvs.any (fun p => p.1 == q.1))))
      | _, b => b

/-- Modelled from the spec: right-wins deep merge (see `deepMergeRWF`). -/
def deepMergeRW (a b : Json) : Json := deepMergeRWF (jsize b) a b

/-- Recipe fields consumed by `jxDB.prototype.modify`. -/
structure MRecipe where
  collection : Option String := none
  reference : Option String := none
  unique : Option String := none
  defaults : Option Json := none

/-- One result row `[op, ref, idx]`. -/
abbrev ModRes := String × Json × Json

/-- The error with which `modify` itself blows up: the `catch` handler
reads the loop-local `ref`, which by `let` scoping does not exist
there. -/
inductive MErr where
  | referenceErr (msg : String)
deriving Repr, DecidableEq

/-- `variable === null` test. -/
def jsNull : Json → Bool
  | .null => true
  | _ => false

/-- `verifyThat(data,'isArrayOfAnyObjects')`: an array whose FIRST
element has `typeof === 'object'` (objects, arrays, and `null`). -/
def isArrayOfAnyObjects (data : List Json) : Bool :=
  match data.head? with
  | some (.obj _) => true
  | some (.arr _) => true
  | some .null => true
  | _ => false

/-- A JavaScript string/empty test on optional recipe fields:
`!recipe.collection` is true for a missing field and for `""`. -/
def strFalsyOpt : Option String → Bool
  | none => true
  | some s => s == ""

/-- `a || b || null` over possibly-undefined property reads. -/
def jsOrNull (a b : Option Json) : Json :=
  match a with
  | some v =>
      if jsTruthy v then v
      else match b with
        | some w => if jsTruthy w then w else .null
        | none => .null
  | none =>
      match b with
      | some w => if jsTruthy w then w else .null
      | none => .null

/-- Property key of `newRecord[unique.key]` (string keys as such,
numbers via their decimal text; other key shapes do not occur). -/
def jsKeyStr : Json → String
  | .str s => s
  | .num n => ⟨intChars n⟩
  | _ => ""

/-- `xs.splice(start, 1)` with JavaScript coercion of `start`:
non-numbers (including `undefined`) become 0, negative values count
from the end. -/
def spliceOne (xs : List Json) (idx : Option Json) : List Json :=
  let start : Int := match idx with
    | some (.num i) => i
    | _ => 0
  let s : Int := if start < 0 then max ((xs.length : Int) + start) 0
    else min start xs.length
  xs.take s.toNat ++ xs.drop (s.toNat + 1)

/-- `xs[idx] = v` for the change path: only a valid numeric index
mutates the JSON-visible collection (named and out-of-range properties
of the array object are serialization-invisible). -/
def setIdxJS (xs : List Json) (idx : Option Json) (v : Json) : List Json :=
  match idx with
  | some (.num i) => if 0 ≤ i ∧ i.toNat < xs.length then xs.set i.toNat v else xs
  | _ => xs

/-- The for-loop body of `jxDB.prototype.modify` over the data entries,
threading the store and the results.  The first component of the
outcome carries the message of an escaped exception (jsonata
evaluation errors, and `TypeError`s from property access on
`null`/`undefined` or from a missing collection), which the `catch`
clause will convert into its own `ReferenceError`. -/
def modifyGo (refEval : Json → Json → Except String (Option Json))
    (uniqueEval : Json → Except String (Option Json))
    (r : MRecipe) (defaults : Json) :
    List Json → Json → List ModRes → Option String × List ModRes × Json
  | [], db, acc => (none, acc, db)
  | d :: rest, db, acc =>
      match d with
      | .null => (some "TypeError: Cannot read properties of null", acc, db)
      | d =>
        let cname := match r.collection with
          | some c => c
          | none => ""
        let refv := jsOrNull (jsGetProp d "ref") (jsGetProp d "0")
        let recv := jsOrNull (jsGetProp d "record") (jsGetProp d "1")
        if jsNull refv && jsNull recv then
          modifyGo refEval uniqueEval r defaults rest db (acc ++ [("bad", .null, .null)])
        else
          let existingE : Except String Json :=
            if jsNull refv then .ok (Json.obj [("index", Json.null), ("record", Json.obj [])])
            else
              match refEval db refv with
              | .error e => .error e
              | .ok v =>
                  .ok (match v with
                    | some x =>
                        if jsTruthy x then x
                        else Json.obj [("index", Json.null), ("record", Json.obj [])]
                    | none => Json.obj [("index", Json.null), ("record", Json.obj [])])
          match existingE with
          | .error e => (some e, acc, db)
          | .ok existing =>
              if jsTruthy recv then
                let base := match jsGetProp existing "record" with
                  | some rr => mergekeys (jxCopy defaults) rr
                  | none => jxCopy defaults
                let newRecord := mergekeys base recv
                match jsGetProp existing "index" with
                | some .null =>
                    let uniqueE : Except String Json :=
                      match r.unique with
                      | some _ =>
                          (match uniqueEval db with
                           | .error e => .error e
                           | .ok (some u) => .ok u
                           | .ok none => .error "TypeError: in requires an object")
                      | none => .ok (Json.obj [])
                    match uniqueE with
                    | .error e => (some e, acc, db)
                    | .ok unique =>
                        match unique with
                        | .obj ukvs =>
                            let newRec2 := match getKey ukvs "key" with
                              | some kj =>
                                  (match getKey ukvs "value" with
                                   | some v => jsSetProp newRecord (jsKeyStr kj) v
                                   | none => newRecord)
                              | none => newRecord
                            match jsGetProp db cname with
                            | some (.arr xs) =>
                                let addRef := match getKey ukvs "value" with
                                  | some v => if jsTruthy v then v else Json.null
                                  | none => Json.null
                                modifyGo refEval uniqueEval r defaults rest
                                  (jsSetProp db cname (.arr (xs ++ [newRec2])))
                                  (acc ++ [("add", addRef, .num xs.length)])
                            | _ => (some "TypeError: push on a missing collection", acc, db)
                        | _ => (some "TypeError: in requires an object", acc, db)
                | idxOpt =>
                    let idxval := idxOpt.getD Json.null
                    match jsGetProp db cname with
                    | some (.arr xs) =>
                        modifyGo refEval uniqueEval r defaults rest
                          (jsSetProp db cname (.arr (setIdxJS xs idxOpt newRecord)))
                          (acc ++ [("change", refv, idxval)])
                    | _ => (some "TypeError: assignment on a missing collection", acc, db)
              else
                match jsGetProp existing "index" with
                | some .null =>
                    modifyGo refEval uniqueEval r defaults rest db
                      (acc ++ [("nop", refv, .null)])
                | idxOpt =>
                    let idxval := idxOpt.getD Json.null
                    match jsGetProp db cname with
                    | some (.arr xs) =>
                        modifyGo refEval uniqueEval r defaults rest
                          (jsSetProp db cname (.arr (spliceOne xs idxOpt)))
                          (acc ++ [("delete", refv, idxval)])
                    | _ => (some "TypeError: splice on a missing collection", acc, db)

/-- `jxDB.prototype.modify(recipeSpec, data)`: prechecks return an
empty results array; otherwise the loop runs inside `try`.  When
anything in the loop throws, the `catch` clause evaluates the
loop-local variable `ref` — which `let` scoping puts OUT OF SCOPE
there — so the handler itself raises `ReferenceError: ref is not
defined` and `modify` propagates that exception instead of returning
the results array (the `['error', ref, msg]` row is never pushed).
The second component is the store as mutated so far. -/
def modify (refEval : Json → Json → Except String (Option Json))
    (uniqueEval : Json → Except String (Option Json))
    (r : MRecipe) (db : Json) (data : List Json) :
    Except MErr (List ModRes) × Json :=
  if strFalsyOpt r.collection || strFalsyOpt r.reference then (.ok [], db)
  else if isArrayOfAnyObjects data = false then (.ok [], db)
  else
    let defaults := match r.defaults with
      | some d => if jsTruthy d then d else Json.obj []
      | none => Json.obj []
    match modifyGo refEval uniqueEval r defaults data db [] with
    | (none, acc, db') => (.ok acc, db')
    | (some _, _, db') => (.error (.referenceErr "ref is not defined"), db')

theorem jsNull_false_of_truthy (v : Json) (h : jsTruthy v = true) : jsNull v = false := by
  cases v <;> simp_all [jsTruthy, jsNull]

/-- The existing record of the C6 counterexample. -/
def c6old : Json := .obj [("a", .num 5)]

/-- The incoming record of the C6 counterexample: field `a` becomes an
object. -/
def c6inc : Json := .obj [("a", .obj [("b", .num 1)])]

/-- Reference evaluation resolving the C6 counterexample's `ref` to the
existing record at index 0. -/
def c6refEval : Json → Json → Except String (Option Json) :=
  fun _ _ => .ok (some (.obj [("index", .num 0), ("record", c6old)]))

/-- A unique evaluator that is never consulted (no `unique` recipe
field in these runs). -/
def uEvalUnused : Json → Except String (Option Json) := fun _ => .ok none

/-- The modify recipe of the C6/C10 concrete runs. -/
def c6recipe : MRecipe := { collection := some "c", reference := some "re" }

/-- The store of the C6/C10 concrete runs: one collection `c` holding
the existing record. -/
def c6db : Json := .obj [("c", .arr [c6old])]

/-- The modify entry of the C6/C10 concrete runs. -/
def c6entry : Json := .obj [("ref", .str "r"), ("record", c6inc)]

/-- C6 counterexample: updating `@a: 5@` with `@a: @b: 1@@` stores
`@a: 5@` — the incoming nested OBJECT loses to the existing truthy
scalar (mergekeys recurses into the autoboxed number and discards the
box) — whereas the right-wins deep merge the claim asserts yields
`@a: @b: 1@@`.  Right-wins does NOT hold at every nesting level. -/
theorem c6_counterexample :
    modify c6refEval uEvalUnused c6recipe c6db [c6entry]
      = (.ok [("change", Json.str "r", Json.num 0)],
         Json.obj [("c", Json.arr [Json.obj [("a", Json.num 5)]])])
    ∧ deepMergeRW (deepMergeRW (jxCopy (Json.obj [])) c6old) c6inc
      = Json.obj [("a", Json.obj [("b", Json.num 1)])]
    ∧ Json.obj [("a", Json.num 5)] ≠ Json.obj [("a", Json.obj [("b", Json.num 1)])] :=
  ⟨rfl, rfl, by simp⟩

/-- C6 as amended: the stored record equals the
`jxCopy(defaults).mergekeys(existing.record).mergekeys(record)` merge,
where `mergekeys` is the source's merge — right-wins for scalar
values and for objects merged over falsy or object targets, but an
incoming object/array loses to an existing truthy scalar, and arrays
merge index-wise.  The first conjunct is the update (change) path for
an arbitrary recipe; the second is the insert (add) path for a recipe
without a `unique` field (a present `unique` key assignment would
additionally override the merged field). -/
theorem c6_amended
    (refEval : Json → Json → Except String (Option Json))
    (uniqueEval : Json → Except String (Option Json))
    (c re : String) (hc : c ≠ "") (hre : re ≠ "")
    (dflts : Option Json) (dbkvs : List (String × Json)) (xs : List Json)
    (refv er rec : Json) (i : Nat)
    (hrefT : jsTruthy refv = true) (hrecT : jsTruthy rec = true)
    (hdb : getKey dbkvs c = some (.arr xs)) (hi : i < xs.length)
    (hev : refEval (Json.obj dbkvs) refv
      = .ok (some (.obj [("index", .num (i : Int)), ("record", er)]))) :
    (modify refEval uniqueEval
        { collection := some c, reference := some re, defaults := dflts }
        (Json.obj dbkvs) [Json.obj [("ref", refv), ("record", rec)]]
      = (.ok [("change", refv, .num (i : Int))],
         Json.obj (setKey dbkvs c (.arr (xs.set i
           (mergekeys (mergekeys (jxCopy (match dflts with
             | some d => if jsTruthy d then d else Json.obj []
             | none => Json.obj [])) er) rec))))))
    ∧ (refEval (Json.obj dbkvs) refv
        = .ok (some (.obj [("index", Json.null), ("record", er)])) →
      modify refEval uniqueEval
          { collection := some c, reference := some re, defaults := dflts }
          (Json.obj dbkvs) [Json.obj [("ref", refv), ("record", rec)]]
        = (.ok [("add", Json.null, .num (xs.length : Int))],
           Json.obj (setKey dbkvs c (.arr (xs ++
             [mergekeys (mergekeys (jxCopy (match dflts with
               | some d => if jsTruthy d then d else Json.obj []
               | none => Json.obj [])) er) rec]))))) := by
  have hc' : (c == "") = false := beq_eq_false_iff_ne.mpr hc
  have hre' : (re == "") = false := beq_eq_false_iff_ne.mpr hre
  have hrefN : jsNull refv = false := jsNull_false_of_truthy _ hrefT
  have hrecN : jsNull rec = false := jsNull_false_of_truthy _ hrecT
  have hidx : (0 ≤ (i : Int) ∧ (i : Int).toNat < xs.length) := by
    refine ⟨Int.ofNat_nonneg i, by simpa using hi⟩
  have g1 : jsGetProp (Json.obj [("ref", refv), ("record", rec)]) "ref" = some refv := rfl
  have g2 : jsGetProp (Json.obj [("ref", refv), ("record", rec)]) "record" = some rec := rfl
  have g3 : jsGetProp (Json.obj [("ref", refv), ("record", rec)]) "0" = none := rfl
  have g4 : jsGetProp (Json.obj [("ref", refv), ("record", rec)]) "1" = none := rfl
  have hOrRef : jsOrNull (some refv) none = refv := by
    unfold jsOrNull
    dsimp only
    rw [hrefT]
    rfl
  have hOrRec : jsOrNull (some rec) none = rec := by
    unfold jsOrNull
    dsimp only
    rw [hrecT]
    rfl
  constructor
  · have gi : jsGetProp (Json.obj [("index", Json.num (i : Int)), ("record", er)]) "index"
        = some (Json.num (i : Int)) := rfl
    have gr : jsGetProp (Json.obj [("index", Json.num (i : Int)), ("record", er)]) "record"
        = some er := rfl
    unfold modify
    rw [if_neg (by simp [strFalsyOpt, hc', hre'])]
    rw [if_neg (by simp [isArrayOfAnyObjects])]
    unfold modifyGo
    dsimp only
    rw [g1, g3, g2, g4, hOrRef, hOrRec, hrefN, hrecN]
    rw [show (false && false) = false from rfl]
    rw [if_neg (by simp)]
    rw [if_neg (by simp [hrefN])]
    rw [hev]
    dsimp only
    rw [show jsTruthy (Json.obj [("index", Json.num (i : Int)), ("record", er)]) = true
      from rfl]
    rw [if_pos rfl, if_pos hrecT]
    rw [gi, gr]
    dsimp only
    rw [show jsGetProp (Json.obj dbkvs) c = some (Json.arr xs) from hdb]
    dsimp only
    unfold setIdxJS
    dsimp only
    rw [if_pos hidx]
    dsimp only [jsSetProp, Option.getD]
    unfold modifyGo
    simp [Int.toNat_ofNat]
  · intro hevAdd
    have gi : jsGetProp (Json.obj [("index", Json.null), ("record", er)]) "index"
        = some Json.null := rfl
    have gr : jsGetProp (Json.obj [("index", Json.null), ("record", er)]) "record"
        = some er := rfl
    unfold modify
    rw [if_neg (by simp [strFalsyOpt, hc', hre'])]
    rw [if_neg (by simp [isArrayOfAnyObjects])]
    unfold modifyGo
    dsimp only
    rw [g1, g3, g2, g4, hOrRef, hOrRec, hrefN, hrecN]
    rw [show (false && false) = false from rfl]
    rw [if_neg (by simp)]
    rw [if_neg (by simp [hrefN])]
    rw [hevAdd]
    dsimp only
    rw [show jsTruthy (Json.obj [("index", Json.null), ("record", er)]) = true from rfl]
    rw [if_pos rfl, if_pos hrecT]
    rw [gi, gr]
    dsimp only
    rw [show jsGetProp (Json.obj dbkvs) c = some (Json.arr xs) from hdb]
    dsimp only
    dsimp only [jsSetProp]
    unfold modifyGo
    simp [getKey]

/-- Witness for `c6_amended` at the concrete counterexample inputs. -/
theorem c6_amended_witness :
    modify c6refEval uEvalUnused
        { collection := some "c", reference := some "re", defaults := none }
        (Json.obj [("c", Json.arr [c6old])]) [Json.obj [("ref", Json.str "r"), ("record", c6inc)]]
      = (.ok [("change", Json.str "r", Json.num 0)],
         Json.obj (setKey [("c", Json.arr [c6old])] "c" (Json.arr ([c6old].set 0
           (mergekeys (mergekeys (jxCopy (Json.obj [])) c6old) c6inc))))) :=
  (c6_amended c6refEval uEvalUnused "c" "re" (by decide) (by decide) none
    [("c", Json.arr [c6old])] [c6old] (Json.str "r") c6old c6inc 0
    rfl rfl rfl (by decide) rfl).1

theorem accExt (acc : List ModRes) (op : ModRes) (h : ∀ x ∈ acc, x.1 ≠ "error")
    (hop : op.1 ≠ "error") : ∀ x ∈ acc ++ [op], x.1 ≠ "error" := by
  intro x hx
  rcases List.mem_append.mp hx with h1 | h1
  · exact h x h1
  · have := List.mem_singleton.mp h1
    subst this
    exact hop

theorem modifyGo_ops (refEval : Json → Json → Except String (Option Json))
    (uniqueEval : Json → Except String (Option Json)) (r : MRecipe) (defaults : Json)
    (data : List Json) : ∀ db acc, (∀ x ∈ acc, x.1 ≠ "error") →
    ∀ x ∈ (modifyGo refEval uniqueEval r defaults data db acc).2.1, x.1 ≠ "error" := by
  induction data with
  | nil =>
      intro db acc h
      exact h
  | cons d rest ih =>
      intro db acc h
      cases d
      all_goals rw [modifyGo]
      all_goals first
        | exact h
        | (intro hcon
           exact Json.noConfusion hcon)
        | (dsimp only
           repeat' split
           all_goals first
             | exact h
             | (refine ih _ _ (accExt acc _ h ?_)
                simp))

/-- C10: when anything inside the modify loop throws (a jsonata
evaluation error of the `reference` or `unique` expression, or a
TypeError), `jxDB.prototype.modify` itself raises a `ReferenceError`
instead of returning a results array — its catch handler reads the
loop-local `ref`, which is not in scope there — and consequently no
results array it ever returns can contain an `['error', ref, msg]`
row.  The second conjunct exhibits the exception on a concrete run
whose reference evaluation throws. -/
theorem c10_modify_raises :
    (∀ refEval uniqueEval r db data res,
        (modify refEval uniqueEval r db data).1 = .ok res → ∀ x ∈ res, x.1 ≠ "error")
    ∧ (modify (fun _ _ => .error "jsonata reference evaluation throws") uEvalUnused
        c6recipe c6db [c6entry]).1
      = .error (.referenceErr "ref is not defined") := by
  constructor
  · intro refEval uniqueEval r db data res hok x hx
    unfold modify at hok
    split at hok
    · rw [show res = [] from (Except.ok.inj hok).symm] at hx
      simp at hx
    · split at hok
      · rw [show res = [] from (Except.ok.inj hok).symm] at hx
        simp at hx
      · dsimp only at hok
        rcases hgo : modifyGo refEval uniqueEval r
            (match r.defaults with
              | some d => if jsTruthy d then d else Json.obj []
              | none => Json.obj []) data db [] with ⟨tr, acc, db'⟩
        rw [hgo] at hok
        cases tr with
        | none =>
            have hres : res = acc := (Except.ok.inj hok).symm
            subst hres
            have := modifyGo_ops refEval uniqueEval r
              (match r.defaults with
                | some d => if jsTruthy d then d else Json.obj []
                | none => Json.obj []) data db [] (by simp)
            rw [hgo] at this
            exact this x hx
        | some e => exact absurd hok (by simp)
  · rfl

/-- Witness for `c10_modify_raises` at a concrete successful run. -/
theorem c10_modify_raises_witness :
    ("change", Json.str "r", Json.num 0).1 ≠ "error" :=
  c10_modify_raises.1 c6refEval uEvalUnused c6recipe c6db [c6entry]
    [("change", Json.str "r", Json.num 0)] rfl
    ("change", Json.str "r", Json.num 0) (by simp)

/-- Witness for `c5_amended`: both conjuncts at concrete inputs. -/
theorem c5_amended_witness :
    readVal
        (mutateVal [Json.obj [("x", Json.num 1)]]
          (query jxUnused [Json.obj [("x", Json.num 1)]] (Json.obj []) c5recipe Json.null)
          (Json.obj [("x", Json.num 2)]))
        (query jxUnused
          (mutateVal [Json.obj [("x", Json.num 1)]]
            (query jxUnused [Json.obj [("x", Json.num 1)]] (Json.obj []) c5recipe Json.null)
            (Json.obj [("x", Json.num 2)]))
          (Json.obj []) c5recipe Json.null)
      = Json.obj [("x", Json.num 2)] :=
  (c5_amended jxUnused [Json.obj [("x", Json.num 1)]] (Json.obj []) c5recipe Json.null).2
    0 (Json.obj [("x", Json.num 2)]) rfl rfl (by decide)

/-! ### Static content service: conditional GET and gzip encoding
(`src/bin/nativeware.js` `contentMW` GET path, `src/bin/apiware.js`
bundled `caching.js` `FileEntry.load` / `FileEntry.content` /
`FileEntry.hasTagMatch`, `src/bin/workers.js` `httpStatusMsg`,
`src/bin/serverware.js` `errorHandler`). -/

/-- `caching.js` `FileEntry` state used by `load`/`content`/`hasTagMatch`:
`tag` is the hmac ETag value (stored unquoted), `ext` the file
extension, `mime` the value of `mimeType(ext)`, `size` the stat size,
`time` the http-formatted mtime string, `fileData` the on-disk bytes,
and `raw`/`gzip` model `this.contents.raw`/`this.contents.gzip`
(`none` = `undefined`). -/
structure FileEntryM where
  tag : String
  ext : String
  mime : String
  size : Nat
  time : String
  fileData : List Nat
  raw : Option (List Nat) := none
  gzip : Option (List Nat) := none
deriving DecidableEq

/-- `FileEntry.prototype.load(store, compress)` (caching.js):
`this.contents.raw = store ? await fsp.readFile(this.spec) : undefined;`
`this.contents.gzip = (store && compress) ? await zip(this.contents.raw) : undefined`,
with `zipf` standing for `zlib.gzip`. -/
def FileEntryM.load (e : FileEntryM) (zipf : List Nat → List Nat)
    (store compress : Bool) : FileEntryM :=
  { e with
      raw := if store then some e.fileData else none
      gzip := if store && compress then some (zipf e.fileData) else none }

/-- The `data` record built by `FileEntry.prototype.content(compressed)`:
the response headers, whether the body is streamed from disk
(`buffer = none`) or served from the in-memory buffer. -/
structure ContentData where
  compressed : Bool
  headers : List (String × String)
  streaming : Bool
  buffer : Option (List Nat)
deriving DecidableEq

/-- The quoted ETag header value `'"' + tag + '"'`. -/
def qtag (tag : String) : String := "\"" ++ tag ++ "\""

/-- The quoted gzip-variant ETag header value `'"' + tag + '-gz"'`. -/
def qtagGz (tag : String) : String := "\"" ++ tag ++ "-gz\""

/-- Decimal digits of a natural number (for the `content-length`
header value), structurally recursive on a fuel bound. -/
def natCharsF : Nat → Nat → List Char
  | _, 0 => []
  | 0, _ => []
  | n + 1, fuel + 1 =>
      natCharsF ((n + 1) / 10) fuel ++ [Char.ofNat (48 + (n + 1) % 10)]

/-- Decimal rendering of a natural number as a string. -/
def natStr (n : Nat) : String := if n = 0 then "0" else ⟨natCharsF n n⟩

/-- `FileEntry.prototype.content(compressed)` (caching.js): the body
streams from disk when no raw contents are stored
(`this.contents.raw===undefined`); on the streaming path an
accept-gzip client is piped through `zlib.createGzip()` — for any
file whatsoever — with a `-gz` ETag; on the buffered path gzip is
used only when a gzip buffer exists, and a `content-length` header is
added. -/
def FileEntryM.content (e : FileEntryM) (compressed : Bool) : ContentData :=
  if e.raw.isNone then
    if compressed then
      { compressed := true
        headers := [("content-type", e.mime), ("content-encoding", "gzip"),
          ("etag", qtagGz e.tag)]
        streaming := true
        buffer := none }
    else
      { compressed := false
        headers := [("content-type", e.mime)]
        streaming := true
        buffer := none }
  else
    let comp := compressed && e.gzip.isSome
    if comp then
      { compressed := true
        headers := [("content-type", e.mime), ("content-encoding", "gzip"),
          ("etag", qtagGz e.tag),
          ("content-length", natStr (e.gzip.getD []).length)]
        streaming := false
        buffer := e.gzip }
    else
      { compressed := false
        headers := [("content-type", e.mime), ("etag", qtag e.tag),
          ("content-length", natStr (e.raw.getD []).length)]
        streaming := false
        buffer := e.raw }

/-- `FileEntry.prototype.hasTagMatch(tags)` (caching.js):
`tags.split(',').map(t=>t.trim()).filter(t=>t.includes(this.tag))[0]` —
the first comma-separated candidate whose text CONTAINS the entry tag
(so both `"tag"` and `"tag-gz"` match), or `none` (`undefined`). -/
def FileEntryM.hasTagMatch (e : FileEntryM) (tags : String) : Option (List Char) :=
  (((splitSeq [','] tags.data).map trimWS).filter
    (fun t => containsSeq t e.tag.data)).head?

/-- JavaScript truthiness of `hasTagMatch`'s result: a defined,
non-empty string. -/
def optStrTruthy : Option (List Char) → Bool
  | some t => !t.isEmpty
  | none => false

/-- JavaScript `new Date(a) >= new Date(b)` under an abstract date
valuation (`none` = invalid date; any comparison against an invalid
date is false). -/
def dateGE (dateVal : String → Option Int) (a b : String) : Bool :=
  match dateVal a, dateVal b with
  | some x, some y => decide (y ≤ x)
  | _, _ => false

/-- The GET tail of `contentMW` for a plain file (nativeware.js
253–272), after `Last-Modified` has been set: throw `304` when
`if-modified-since` is truthy and parses to a date `>=` the entry's
mtime; otherwise throw `304` when `if-none-match` is truthy and
`hasTagMatch` returns a truthy candidate; otherwise, when the cache
missed (`!inCache`), load the new entry with
`store = size < cache.max` and `compress = compressTypes.includes(ext)`
and serve it, else serve the cached `oldEntry`; the body encoding
choice is `content((accept-encoding || '').includes('gzip'))`.
Absent request headers are `none`. -/
def contentGetM (dateVal : String → Option Int) (zipf : List Nat → List Nat)
    (cacheMax : Nat) (compressTypes : List String)
    (newEntry oldEntry : FileEntryM) (inCache : Bool)
    (since etags acceptEnc : Option String) : Except Nat ContentData :=
  let sinceS := since.getD ""
  if sinceS != "" && dateGE dateVal sinceS newEntry.time then .error 304
  else
    let etagsS := etags.getD ""
    if etagsS != "" && optStrTruthy (newEntry.hasTagMatch etagsS) then .error 304
    else
      let entry :=
        if inCache then oldEntry
        else newEntry.load zipf (decide (newEntry.size < cacheMax))
          (compressTypes.contains newEntry.ext)
      .ok (entry.content (containsSeq (acceptEnc.getD "").data "gzip".data))

/-- The `httpCodes` table of workers.js. -/
def httpCodes : List (Nat × String) :=
  [(200, "OK"), (201, "Created"), (202, "Accepted"), (304, "Not Modified"),
   (400, "Bad Request"), (401, "NOT Authorized!"), (403, "Forbidden"),
   (404, "File NOT found!"), (405, "Method Not Allowed"),
   (413, "Payload Too Large"), (500, "Internal Server Error"),
   (501, "Not Supported"), (503, "Service U?navailable")]

/-- `workers.httpStatusMsg` restricted to a numeric (thrown status
code) argument: `{error: c>399, code: validCode(e) ? e : 500,
msg: httpCodes[e] || 'UNKNOWN ERROR'}`. -/
def httpStatusMsgN (err : Nat) : Bool × Nat × String :=
  let valid := (httpCodes.map (fun p => p.1)).contains err
  let c := if valid then err else 500
  (decide (399 < c), c, (match httpCodes.find? (fun p => p.1 == err) with
    | some p => p.2
    | none => "UNKNOWN ERROR"))

/-- What `serverware.errorHandler` writes for a thrown value: the
response status, its status message, and whether an error body is
written before `res.end()`. -/
structure StatusResp where
  status : Nat
  msg : String
  hasBody : Bool
deriving DecidableEq

/-- `serverware.defineErrorHandler`'s handler for a thrown numeric
status: 404 with a configured redirect becomes a 301; a sub-400 code
is written as a status-only head (`res.writeHead(ex.code, ex.msg)`)
followed directly by `res.end()` — no body; 400 and above get a JSON
error body. -/
def errorHandlerM (redirect : Option String) (err : Nat) : StatusResp :=
  let ex := httpStatusMsgN err
  if ex.2.1 == 404 && redirect.isSome then
    { status := 301, msg := "", hasBody := false }
  else if ex.2.1 < 400 then
    { status := ex.2.1, msg := ex.2.2, hasBody := false }
  else
    { status := ex.2.1, msg := ex.2.2, hasBody := true }

/-- The default compressible-extension list of `contentMW`
(`compressTypes = asList(compressTypes||'css,csv,html,htm,js,json,pdf,txt')`). -/
def compressDefaults : List String :=
  ["css", "csv", "html", "htm", "js", "json", "pdf", "txt"]

theorem isPrefixOf_append (l r : List Char) : l.isPrefixOf (l ++ r) = true := by
  induction l with
  | nil => simp [List.isPrefixOf]
  | cons c cs ih => simp [List.isPrefixOf, ih]

theorem containsSeq_pos (hay needle : List Char) (i : Nat) (hi : i ≤ hay.length)
    (h : needle.isPrefixOf (hay.drop i) = true) : containsSeq hay needle = true := by
  unfold containsSeq findFrom
  have hmem : i ∈ (List.range (hay.length + 1)).filter
      (fun j => decide (0 ≤ j) && needle.isPrefixOf (hay.drop j)) := by
    refine List.mem_filter.mpr ⟨List.mem_range.mpr (by omega), ?_⟩
    simp [h]
  cases hf : (List.range (hay.length + 1)).filter
      (fun j => decide (0 ≤ j) && needle.isPrefixOf (hay.drop j)) with
  | nil =>
      rw [hf] at hmem
      exact absurd hmem (by simp)
  | cons j js =>
      dsimp only
      exact bne_iff_ne.mpr (by omega)

theorem containsSeq_nil (needle : List Char) (h : needle ≠ []) :
    containsSeq [] needle = false := by
  cases needle with
  | nil => exact absurd rfl h
  | cons c cs => rfl

theorem hasTagMatch_truthy (e : FileEntryM) (tags : String) (t : List Char)
    (htag : e.tag ≠ "")
    (ht : t ∈ (splitSeq [','] tags.data).map trimWS)
    (hctn : containsSeq t e.tag.data = true) :
    optStrTruthy (e.hasTagMatch tags) = true := by
  have htagd : e.tag.data ≠ [] := by
    intro hd
    exact htag (String.ext (hd.trans rfl))
  have hmem : t ∈ ((splitSeq [','] tags.data).map trimWS).filter
      (fun x => containsSeq x e.tag.data) := List.mem_filter.mpr ⟨ht, hctn⟩
  unfold FileEntryM.hasTagMatch
  cases hf : ((splitSeq [','] tags.data).map trimWS).filter
      (fun x => containsSeq x e.tag.data) with
  | nil =>
      rw [hf] at hmem
      exact absurd hmem (by simp)
  | cons h hs =>
      have hh : containsSeq h e.tag.data = true := by
        have : h ∈ ((splitSeq [','] tags.data).map trimWS).filter
            (fun x => containsSeq x e.tag.data) := by
          rw [hf]
          exact List.mem_cons_self _ _
        exact (List.mem_filter.mp this).2
      have hne : h ≠ [] := by
        intro hnil
        rw [hnil, containsSeq_nil _ htagd] at hh
        exact Bool.false_ne_true hh
      simp [optStrTruthy, List.head?, List.isEmpty_iff, hne]

/-- C7: on a static-file GET, a request whose `If-Modified-Since`
header is truthy and parses to a date not earlier than the entry's
modification time, or whose `If-None-Match` header's comma-separated
list contains (after trimming) the entry's quoted ETag or its quoted
`-gz` variant, makes `contentMW` throw `304`; the error handler turns
a thrown `304` into a status-only `304 Not Modified` response with no
body. -/
theorem c7_conditional_get_304
    (dateVal : String → Option Int) (zipf : List Nat → List Nat)
    (cacheMax : Nat) (compressTypes : List String)
    (newEntry oldEntry : FileEntryM) (inCache : Bool)
    (since etags acceptEnc : Option String) (redirect : Option String)
    (htag : newEntry.tag ≠ "")
    (hcond :
      (since.getD "" ≠ "" ∧ dateGE dateVal (since.getD "") newEntry.time = true)
      ∨ (∃ t ∈ (splitSeq [','] (etags.getD "").data).map trimWS,
          t = (qtag newEntry.tag).data ∨ t = (qtagGz newEntry.tag).data)) :
    contentGetM dateVal zipf cacheMax compressTypes newEntry oldEntry inCache
        since etags acceptEnc = .error 304
    ∧ errorHandlerM redirect 304
        = { status := 304, msg := "Not Modified", hasBody := false } := by
  constructor
  · unfold contentGetM
    rcases hcond with ⟨h1, h2⟩ | ⟨t, ht, heq⟩
    · rw [if_pos (by rw [Bool.and_eq_true]; exact ⟨bne_iff_ne.mpr h1, h2⟩)]
    · by_cases hfirst :
        (since.getD "" != "" && dateGE dateVal (since.getD "") newEntry.time) = true
      · rw [if_pos hfirst]
      · rw [if_neg hfirst]
        have hqt : (qtag newEntry.tag).data
            = '"' :: (newEntry.tag.data ++ ['"']) := by
          simp [qtag]
        have hqz : (qtagGz newEntry.tag).data
            = '"' :: (newEntry.tag.data ++ ('-' :: 'g' :: 'z' :: ['"'])) := by
          simp [qtagGz]
        have htne : t ≠ [] := by
          rcases heq with h | h <;> rw [h]
          · rw [hqt]
            exact List.cons_ne_nil _ _
          · rw [hqz]
            exact List.cons_ne_nil _ _
        have hctn : containsSeq t newEntry.tag.data = true := by
          rcases heq with h | h <;> rw [h]
          · refine containsSeq_pos _ _ 1 ?_ ?_
            · rw [hqt]
              simp
            · rw [hqt]
              exact isPrefixOf_append _ _
          · refine containsSeq_pos _ _ 1 ?_ ?_
            · rw [hqz]
              simp
            · rw [hqz]
              exact isPrefixOf_append _ _
        have hets : etags.getD "" ≠ "" := by
          intro hE
          rw [hE, show ("" : String).data = [] from rfl] at ht
          simp [splitSeq, splitSeqF, trimWS] at ht
          exact htne ht
        rw [if_pos (by
          rw [Bool.and_eq_true]
          exact ⟨bne_iff_ne.mpr hets, hasTagMatch_truthy _ _ t htag ht hctn⟩)]
  · simp [errorHandlerM, httpStatusMsgN, httpCodes]

/-- Concrete file entry for the C7 witness. -/
def c7entry : FileEntryM :=
  { tag := "T0"
    ext := "html"
    mime := "text/html"
    size := 3
    time := "Mon, 01 Jan 2024 00:00:00 GMT"
    fileData := [104, 105, 10] }

/-- Witness for `c7_conditional_get_304`: a matching
`If-Modified-Since` produces the bodyless 304. -/
theorem c7_conditional_get_304_witness :
    contentGetM (fun _ => some 0) (fun l => l) 100 compressDefaults c7entry c7entry
        false (some "Tue, 02 Jan 2024 00:00:00 GMT") none none = .error 304
    ∧ errorHandlerM none 304
        = { status := 304, msg := "Not Modified", hasBody := false } :=
  c7_conditional_get_304 (fun _ => some 0) (fun l => l) 100 compressDefaults
    c7entry c7entry false (some "Tue, 02 Jan 2024 00:00:00 GMT") none none none
    (by decide) (Or.inl ⟨by decide, rfl⟩)

/-- Concrete file entry for the C8 counterexample: a `png` larger
than the cache threshold. -/
def c8entry : FileEntryM :=
  { tag := "T8"
    ext := "png"
    mime := "image/png"
    size := 200
    time := "Mon, 01 Jan 2024 00:00:00 GMT"
    fileData := [1, 2, 3] }

/-- C8 counterexample: a file whose extension is NOT in the
compressible set and which is NOT held in memory (size ≥ cache.max,
so `load(false,·)` leaves `contents.raw` undefined and `content`
streams) is nevertheless served with `Content-Encoding: gzip` as soon
as the client sends `Accept-Encoding: gzip` — `FileEntry.content`'s
streaming path pipes through `zlib.createGzip()` for every extension. -/
theorem c8_counterexample :
    (compressDefaults.contains c8entry.ext) = false
    ∧ (decide (c8entry.size < 100)) = false
    ∧ contentGetM (fun _ => none) (fun l => l) 100 compressDefaults c8entry c8entry
        false none none (some "gzip")
      = .ok { compressed := true
              headers := [("content-type", "image/png"),
                ("content-encoding", "gzip"), ("etag", qtagGz "T8")]
              streaming := true
              buffer := none } :=
  ⟨by decide, by decide, rfl⟩

/-- C8 (amended): for a cache-missing static-file GET that passes
both conditional checks, the response carries
`Content-Encoding: gzip` exactly when the client accepts gzip AND the
entry is either streamed (`size ≥ cache.max`, any extension) or its
extension is in the compressible set; gzip is NOT limited to
in-memory entries — every streamed response to a gzip-accepting
client is gzip-encoded. -/
theorem c8_amended
    (dateVal : String → Option Int) (zipf : List Nat → List Nat)
    (cacheMax : Nat) (compressTypes : List String)
    (newEntry oldEntry : FileEntryM)
    (since etags acceptEnc : Option String)
    (h1 : (since.getD "" != "" && dateGE dateVal (since.getD "") newEntry.time)
      = false)
    (h2 : (etags.getD "" != ""
      && optStrTruthy (newEntry.hasTagMatch (etags.getD ""))) = false) :
    ∃ d, contentGetM dateVal zipf cacheMax compressTypes newEntry oldEntry false
        since etags acceptEnc = .ok d
      ∧ ((("content-encoding", "gzip") ∈ d.headers) ↔
          (containsSeq (acceptEnc.getD "").data "gzip".data = true
            ∧ (cacheMax ≤ newEntry.size ∨ compressTypes.contains newEntry.ext = true))) := by
  unfold contentGetM
  rw [if_neg (by rw [h1]; exact Bool.false_ne_true)]
  rw [if_neg (by rw [h2]; exact Bool.false_ne_true)]
  rw [if_neg (by exact Bool.false_ne_true)]
  refine ⟨_, rfl, ?_⟩
  cases hcp : containsSeq (acceptEnc.getD "").data "gzip".data <;>
    cases hstore : decide (newEntry.size < cacheMax) <;>
      cases hcx : compressTypes.contains newEntry.ext <;>
        simp [FileEntryM.load, FileEntryM.content, hcp, hstore, hcx] <;>
          first
            | (have hx := of_decide_eq_false hstore
               omega)
            | (have hx := of_decide_eq_true hstore
               omega)

/-- Witness for `c8_amended`: a compressible in-memory entry served
to a gzip-accepting client. -/
theorem c8_amended_witness :
    ∃ d, contentGetM (fun _ => none) (fun l => l) 100 compressDefaults c7entry
        c7entry false none none (some "gzip") = .ok d
      ∧ ((("content-encoding", "gzip") ∈ d.headers) ↔
          (containsSeq ((some "gzip" : Option String).getD "").data "gzip".data = true
            ∧ (100 ≤ c7entry.size ∨ compressDefaults.contains c7entry.ext = true))) := by
  exact c8_amended (fun _ => none) (fun l => l) 100 compressDefaults c7entry c7entry
    none none (some "gzip") rfl rfl

end DIY
